import Mathlib

/-!
# Verification of the `world-sql` workflow storage / queue / streaming layer

This file shallowly embeds the core pure logic of the `@workflow/world-sql`
package (the polling job queue of `queue/table-queue` [`src/unnamed/part_007`],
the runs/steps/hooks storage of `src/storage.ts`, and the polling streamer of
`src/streaming/polling-streaming.ts`) and proves or refutes the specified
properties about it.

Embedding conventions:
* ULIDs (`msg_<ulid>`, `wrun_<ulid>`, `chnk_<ulid>` …) are produced by a
  per-process *monotonic* factory, so successive ids are strictly increasing
  in the string order; we model them as natural numbers handed out by a
  counter threaded through the state.
* Timestamps (`Date`) are naturals (milliseconds).
* A database table is a `List` of row structures; `UPDATE … WHERE` is a `map`
  that rewrites the rows matching the `WHERE` predicate; `SELECT … LIMIT 1`
  is `List.find?`.
* JS `throw` of a `WorkflowAPIError` is modelled with `Except ErrInfo`.
* `String.startsWith` of the source is embedded as `List.isPrefixOf` on the
  underlying character lists (same function, but it evaluates by `decide`).
-/

namespace WorldSQL

/-- `WorkflowAPIError` carries a message and an HTTP-ish status code. -/
structure ErrInfo where
  msg : String
  status : Nat
deriving DecidableEq, Repr

/-- The back-end type (`src/config.ts`). -/
inductive DatabaseType
  | postgres
  | mysql
  | sqlite
deriving DecidableEq, Repr

/-! ## Polling job queue (`createTableQueue`, `src/unnamed/part_007`) -/

/-- `status` column of the `jobs` table. -/
inductive JobStatus
  | pending
  | processing
  | completed
  | failed
deriving DecidableEq, Repr

/-- The serialized `MessageData` payload stored in a job row. -/
structure MessageData where
  id : String
  data : String
  attempt : Nat
  messageId : Nat
  idempotencyKey : Option String
deriving DecidableEq, Repr

/-- A row of the `jobs` table. -/
structure Job where
  id : Nat
  queueName : String
  payload : MessageData
  status : JobStatus
  attempts : Nat
  maxAttempts : Nat
  lockedUntil : Option Nat
  scheduledFor : Nat
  idempotencyKey : Option String
  error : Option String
deriving DecidableEq, Repr

/-- Queue-adapter state: the `jobs` table plus the monotonic ULID counter
backing `generateMessageId`. -/
structure QueueState where
  jobs : List Job
  nextMsg : Nat
deriving DecidableEq, Repr

/-- `String.startsWith`, embedded on the character lists. -/
def strStartsWith (s p : String) : Bool :=
  p.data.isPrefixOf s.data

/-- `parseQueueName` (`src/unnamed/part_007`, bottom): try the two known
prefixes in order and split the name; unknown names throw. -/
def parseQueueName (name : String) : Option (String × String) :=
  if strStartsWith name "__wkf_step_" then
    some ("__wkf_step_", name.drop "__wkf_step_".length)
  else if strStartsWith name "__wkf_workflow_" then
    some ("__wkf_workflow_", name.drop "__wkf_workflow_".length)
  else
    none

/-- The `Queues` record: maps a caller-side queue-name leader to the stable
job-queue name (`${prefix}flows` / `${prefix}steps`). -/
def queuesMap (jobPfx qpfx : String) : String :=
  if qpfx = "__wkf_workflow_" then jobPfx ++ "flows" else jobPfx ++ "steps"

/-- The job row inserted by `queue`. -/
def newJobRow (jobPfx qpfx qid message : String) (idemKey : Option String)
    (messageId now : Nat) : Job :=
  { id := messageId, queueName := queuesMap jobPfx qpfx
    payload :=
      { id := qid, data := message, attempt := 1
        messageId := messageId, idempotencyKey := idemKey }
    status := .pending, attempts := 0, maxAttempts := 3
    lockedUntil := none, scheduledFor := now
    idempotencyKey := idemKey, error := none }

/-- The `queue` operation of `createTableQueue`: generate a fresh `messageId`,
encode the payload, short-circuit on an existing `idempotencyKey` row, and
otherwise insert a fresh pending job. Returns the message id. -/
def queueOp (jobPfx : String) (st : QueueState) (name : String)
    (message : String) (idemKey : Option String) (now : Nat) :
    Except String (Nat × QueueState) :=
  match parseQueueName name with
  | none => .error ("Invalid queue name: " ++ name)
  | some (qpfx, queueId) =>
    let messageId := st.nextMsg
    let newJob : Job := newJobRow jobPfx qpfx queueId message idemKey messageId now
    match idemKey with
    | some k =>
      match st.jobs.find? (fun j => j.idempotencyKey == some k) with
      | some existing => .ok (existing.id, { st with nextMsg := st.nextMsg + 1 })
      | none => .ok (messageId, ⟨st.jobs ++ [newJob], st.nextMsg + 1⟩)
    | none => .ok (messageId, ⟨st.jobs ++ [newJob], st.nextMsg + 1⟩)

/-- The `WHERE` filter of `pollQueue`: `queueName = ? AND status = 'pending'
AND scheduledFor <= now AND (lockedUntil IS NULL OR lockedUntil <= now)`. -/
def pollCond (queueName : String) (now : Nat) (j : Job) : Bool :=
  j.queueName == queueName && j.status == .pending &&
    decide (j.scheduledFor ≤ now) &&
    (match j.lockedUntil with
     | none => true
     | some t => decide (t ≤ now))

/-- `pollQueue`'s candidate selection: filtered rows, `LIMIT 10`. -/
def pollQueueSelect (jobs : List Job) (queueName : String) (now : Nat) :
    List Job :=
  (jobs.filter (pollCond queueName now)).take 10

/-- The `WHERE` guard of the conditional lease `UPDATE` in `processJob`:
`status = 'pending' AND (lockedUntil IS NULL OR lockedUntil <= now)`
(the `id = ?` part is kept separate). -/
def lockCond (now : Nat) (j : Job) : Bool :=
  j.status == .pending &&
    (match j.lockedUntil with
     | none => true
     | some t => decide (t ≤ now))

/-- The lease `UPDATE` of `processJob`: set `status='processing'`,
`lockedUntil = now + 30s`, `attempts = job.attempts + 1` on rows matching
`id = job.id` and `lockCond`. -/
def leaseJob (jobs : List Job) (job : Job) (now : Nat) : List Job :=
  jobs.map fun j =>
    if j.id == job.id && lockCond now j then
      { j with status := .processing, lockedUntil := some (now + 30000)
               attempts := job.attempts + 1 }
    else j

/-- Whether the lease `UPDATE` affected a row (`rowsAffected > 0` /
nonempty `RETURNING`). -/
def leaseHits (jobs : List Job) (job : Job) (now : Nat) : Bool :=
  jobs.any fun j => j.id == job.id && lockCond now j

/-- The success `UPDATE` of `processJob`:
`SET status='completed', lockedUntil=NULL WHERE id = job.id`. -/
def handleSuccess (jobs : List Job) (job : Job) : List Job :=
  jobs.map fun j =>
    if j.id == job.id then
      { j with status := .completed, lockedUntil := none }
    else j

/-- The failure branch of `processJob`: if `job.attempts + 1 >= maxAttempts`
mark failed, else reschedule with backoff
`min(1000 * 2 ^ job.attempts, 60000)` (note: `job.attempts` is the value read
by the *poll*, i.e. the pre-lease attempt count). -/
def handleFailure (jobs : List Job) (job : Job) (errMsg : String) (now : Nat) :
    List Job :=
  if job.attempts + 1 ≥ job.maxAttempts then
    jobs.map fun j =>
      if j.id == job.id then
        { j with status := .failed, error := some errMsg, lockedUntil := none }
      else j
  else
    let retryDelay := min (1000 * 2 ^ job.attempts) 60000
    jobs.map fun j =>
      if j.id == job.id then
        { j with status := .pending, scheduledFor := now + retryDelay
                 error := some errMsg, lockedUntil := none }
      else j

/-! ## Runs / hooks / steps storage (`src/storage.ts`) -/

/-- `status` column of the `runs` table. -/
inductive RunStatus
  | pending
  | running
  | paused
  | completed
  | failed
  | cancelled
deriving DecidableEq, Repr

/-- The spec's terminal-state set for runs. -/
def RunStatus.isTerminal : RunStatus → Bool
  | .completed | .failed | .cancelled => true
  | _ => false

/-- A row of the `runs` table (the columns the verified properties touch;
JSON payload columns are kept as opaque strings). -/
structure Run where
  runId : Nat
  deploymentId : String
  workflowName : String
  status : RunStatus
  input : String
  output : Option String
  error : Option String
  startedAt : Option Nat
  completedAt : Option Nat
deriving DecidableEq, Repr

/-- The patch accepted by `runs.update` (fields absent from the patch are
not written; drizzle skips `undefined` values in `set`). -/
structure RunPatch where
  status : Option RunStatus := none
  output : Option String := none
  error : Option String := none
deriving DecidableEq, Repr

/-- Spread of the patch over a row (`{...data}` in the source). -/
def applyPatch (r : Run) (p : RunPatch) : Run :=
  { r with
    status := p.status.getD r.status
    output := p.output.or r.output
    error := p.error.or r.error }

/-- `updateAndReturn` (`src/storage.ts:24`): run the `UPDATE` with the
original `WHERE` clause; on MySQL read the row back by *primary key*, on
back-ends with `RETURNING` return the updated rows (first one is used). -/
def updateAndReturn {α : Type} (db : DatabaseType) (table : List α)
    (set : α → α) (wpred : α → Bool) (pkPred : α → Bool) :
    Option α × List α :=
  let table' := table.map fun r => if wpred r then set r else r
  match db with
  | .mysql => (table'.find? pkPred, table')
  | _ => ((table.find? wpred).map set, table')

/-- `insertAndReturn` (`src/storage.ts:56`): insert; on MySQL a duplicate
primary key raises driver error 1062, which is swallowed when
`onConflict=doNothing` and re-thrown otherwise, then the row is read back by
primary key; on SQLite `ON CONFLICT DO NOTHING` plus `RETURNING`. -/
def insertAndReturn {α : Type} (db : DatabaseType) (table : List α) (v : α)
    (pkPred : α → Bool) (onConflictDoNothing : Bool) :
    Except ErrInfo (Option α × List α) :=
  match db with
  | .mysql =>
    if table.any pkPred then
      if onConflictDoNothing then .ok (table.find? pkPred, table)
      else .error ⟨"ER_DUP_ENTRY", 1062⟩
    else
      .ok ((table ++ [v]).find? pkPred, table ++ [v])
  | _ =>
    if table.any pkPred then
      if onConflictDoNothing then .ok (none, table)
      else .error ⟨"UNIQUE constraint failed", 409⟩
    else .ok (some v, table ++ [v])

/-- `runs.get`: `SELECT … LIMIT 1`, 404 when missing. -/
def runsGet (table : List Run) (id : Nat) : Except ErrInfo Run :=
  match table.find? (fun r => r.runId == id) with
  | none => .error ⟨"Run not found", 404⟩
  | some v => .ok v

/-- `runs.cancel`: set `status='cancelled'`, `completedAt=now` on the row
with this id (unguarded on the current status), 404 when the read-back finds
nothing. Returns the result and the post-operation table. -/
def runsCancel (db : DatabaseType) (table : List Run) (id : Nat) (now : Nat) :
    Except ErrInfo Run × List Run :=
  let res := updateAndReturn db table
    (fun r => { r with status := .cancelled, completedAt := some now })
    (fun r => r.runId == id) (fun r => r.runId == id)
  match res.1 with
  | none => (.error ⟨"Run not found", 404⟩, res.2)
  | some v => (.ok v, res.2)

/-- `runs.pause`: set `status='paused'` (unguarded on the current status). -/
def runsPause (db : DatabaseType) (table : List Run) (id : Nat) :
    Except ErrInfo Run × List Run :=
  let res := updateAndReturn db table
    (fun r => { r with status := .paused })
    (fun r => r.runId == id) (fun r => r.runId == id)
  match res.1 with
  | none => (.error ⟨"Run not found", 404⟩, res.2)
  | some v => (.ok v, res.2)

/-- `runs.resume`: `UPDATE … SET status='running' WHERE runId=? AND
status='paused'`; 404 `Paused run not found` when the read-back is empty.
Note `startedAt` is not touched. -/
def runsResume (db : DatabaseType) (table : List Run) (id : Nat) :
    Except ErrInfo Run × List Run :=
  let res := updateAndReturn db table
    (fun r => { r with status := .running })
    (fun r => r.runId == id && r.status == .paused) (fun r => r.runId == id)
  match res.1 with
  | none => (.error ⟨"Paused run not found", 404⟩, res.2)
  | some v => (.ok v, res.2)

/-- The column assignments computed by `runs.update` for one row: spread the
patch, set `startedAt` when the patch moves to running and the *pre-read* row
(`currentRun`) has no `startedAt` yet, set `completedAt` whenever the patch
status is terminal. -/
def updateSetFn (currentRun : Run) (p : RunPatch) (now : Nat) (r : Run) :
    Run :=
  let r1 := applyPatch r p
  let r2 :=
    if p.status == some .running && currentRun.startedAt == none then
      { r1 with startedAt := some now }
    else r1
  if p.status == some .completed || p.status == some .failed ||
      p.status == some .cancelled then
    { r2 with completedAt := some now }
  else r2

/-- `runs.update`: read the current row (404 when absent), decide
`startedAt` (first transition to running, judged from the *pre-read* row) and
`completedAt` (set on every update whose patch status is terminal), then
`updateAndReturn`. -/
def runsUpdate (db : DatabaseType) (table : List Run) (id : Nat)
    (p : RunPatch) (now : Nat) : Except ErrInfo Run × List Run :=
  match table.find? (fun r => r.runId == id) with
  | none => (.error ⟨"Run not found", 404⟩, table)
  | some currentRun =>
    let res := updateAndReturn db table (updateSetFn currentRun p now)
      (fun r => r.runId == id) (fun r => r.runId == id)
    match res.1 with
    | none => (.error ⟨"Run not found", 404⟩, res.2)
    | some v => (.ok v, res.2)

/-- Input of `runs.create`. -/
structure CreateData where
  deploymentId : String
  workflowName : String
  input : String
deriving DecidableEq, Repr

/-- The row inserted by `runs.create` (status pending, timestamps unset). -/
def freshRun (runId : Nat) (d : CreateData) : Run :=
  { runId := runId, deploymentId := d.deploymentId
    workflowName := d.workflowName, status := .pending, input := d.input
    output := none, error := none, startedAt := none, completedAt := none }

/-- `runs.create`: fresh `runId` from the monotonic ULID factory; MySQL
pre-checks existence (409), other back-ends insert with
`onConflict=doNothing` and 409 when nothing was returned. -/
def runsCreate (db : DatabaseType) (table : List Run) (nextUlid : Nat)
    (d : CreateData) : Except ErrInfo Run × List Run :=
  let runId := nextUlid
  let newRun : Run := freshRun runId d
  if db == .mysql then
    match table.find? (fun r => r.runId == runId) with
    | some _ => (.error ⟨"Run already exists", 409⟩, table)
    | none =>
      match insertAndReturn db table newRun (fun r => r.runId == runId) false with
      | .error e => (.error e, table)
      | .ok (none, t') => (.error ⟨"Run already exists", 409⟩, t')
      | .ok (some v, t') => (.ok v, t')
  else
    match insertAndReturn db table newRun (fun r => r.runId == runId) true with
    | .error e => (.error e, table)
    | .ok (none, t') => (.error ⟨"Run already exists", 409⟩, t')
    | .ok (some v, t') => (.ok v, t')

/-- Runs-storage state: the `runs` table plus the monotonic ULID counter. -/
structure RunsState where
  table : List Run
  nextUlid : Nat
deriving DecidableEq, Repr

/-- One invocation of a runs-storage operation. -/
inductive RunOp
  | create (d : CreateData)
  | update (id : Nat) (p : RunPatch)
  | pause (id : Nat)
  | resume (id : Nat)
  | cancel (id : Nat)
deriving DecidableEq, Repr

/-- Apply one operation at wall-clock time `now`; a thrown
`WorkflowAPIError` leaves whatever the already-executed DML did (in all
error paths the table is in fact unchanged). -/
def applyOp (db : DatabaseType) (st : RunsState) (op : RunOp) (now : Nat) :
    RunsState :=
  match op with
  | .create d => ⟨(runsCreate db st.table st.nextUlid d).2, st.nextUlid + 1⟩
  | .update id p => ⟨(runsUpdate db st.table id p now).2, st.nextUlid⟩
  | .pause id => ⟨(runsPause db st.table id).2, st.nextUlid⟩
  | .resume id => ⟨(runsResume db st.table id).2, st.nextUlid⟩
  | .cancel id => ⟨(runsCancel db st.table id now).2, st.nextUlid⟩

/-- Execute a timed operation sequence from a given state. -/
def execFrom (db : DatabaseType) (st : RunsState)
    (ops : List (RunOp × Nat)) : RunsState :=
  ops.foldl (fun s p => applyOp db s p.1 p.2) st

/-- Execute a timed operation sequence from the empty database. -/
def execTrace (db : DatabaseType) (ops : List (RunOp × Nat)) : RunsState :=
  execFrom db ⟨[], 0⟩ ops

/-- The run with this id has been observed with `status='running'` after
some prefix of the trace. -/
def observedRunning (db : DatabaseType) (ops : List (RunOp × Nat))
    (id : Nat) : Prop :=
  ∃ n r, r ∈ (execTrace db (ops.take n)).table ∧ r.runId = id ∧
    r.status = RunStatus.running

/-- How one storage operation may change one existing row: the primary key
is preserved; a set `startedAt` is never modified; `startedAt` can only
appear on a row whose new status is running; a set `completedAt` stays set
(though its value may be overwritten); `completedAt` can only appear
together with a terminal status; and a row that is terminal either carries a
`completedAt` or kept both status and `completedAt` from before. -/
def RowEvolve (x y : Run) : Prop :=
  y.runId = x.runId ∧
  (∀ t, x.startedAt = some t → y.startedAt = some t) ∧
  (x.startedAt = none → y.startedAt = none ∨ y.status = .running) ∧
  (∀ t, x.completedAt = some t → ∃ u, y.completedAt = some u) ∧
  (x.completedAt = none →
    y.completedAt = none ∨ y.status.isTerminal = true) ∧
  (y.status.isTerminal = true →
    y.completedAt ≠ none ∨
      (y.status = x.status ∧ y.completedAt = x.completedAt))

/-- Well-formedness of the runs-storage state: primary keys are pairwise
distinct and below the ULID counter. -/
def RunsInv (st : RunsState) : Prop :=
  (st.table.Pairwise fun a b => a.runId ≠ b.runId) ∧
  ∀ r ∈ st.table, r.runId < st.nextUlid

/-- A row of the `hooks` table (the columns relevant here). -/
structure Hook where
  hookId : Nat
  runId : Nat
  token : String
deriving DecidableEq, Repr

/-- `hooks.get` (`src/storage.ts:409`): `SELECT … LIMIT 1` and return
`compact(value)` — there is *no* missing-row check, so no 404 is ever
thrown; the (possibly absent) row is returned as-is. `compact` lives in
`util.js` (not part of the sources) and is modelled as the identity on a
present row; the decisive fact is only that `hooks.get` contains no
`WorkflowAPIError` path. -/
def hooksGet (table : List Hook) (id : Nat) : Except ErrInfo (Option Hook) :=
  .ok (table.find? (fun h => h.hookId == id))

/-- `status` column of the `steps` table. -/
inductive StepStatus
  | pending
  | running
  | completed
  | failed
deriving DecidableEq, Repr

/-- A row of the `steps` table (the columns relevant here). -/
structure Step where
  runId : Nat
  stepId : Nat
  stepName : String
  status : StepStatus
  attempt : Nat
deriving DecidableEq, Repr

/-- `steps.get` (`src/storage.ts:545`): select by `(stepId, runId)`,
404 when missing. -/
def stepsGet (table : List Step) (runId stepId : Nat) : Except ErrInfo Step :=
  match table.find? (fun s => s.stepId == stepId && s.runId == runId) with
  | none => .error ⟨"Step not found", 404⟩
  | some v => .ok v

/-! ## `runs.list` and the documented pagination protocol
(`src/storage.ts:166`) -/

/-- Parameters of `runs.list`. -/
structure ListParams where
  limit : Nat := 20
  cursor : Option Nat := none
  workflowName : Option String := none
  status : Option RunStatus := none

/-- The combined `WHERE` of `runs.list`: optional cursor bound
(`runId < cursor`), optional `workflowName` and `status` equality filters. -/
def runsMatch (p : ListParams) (r : Run) : Bool :=
  (match p.cursor with
   | some c => decide (r.runId < c)
   | none => true) &&
  (match p.workflowName with
   | some wf => r.workflowName == wf
   | none => true) &&
  (match p.status with
   | some s => r.status == s
   | none => true)

/-- `ORDER BY runId DESC` as a relation. -/
def runDescLE (a b : Run) : Prop := b.runId ≤ a.runId

instance : DecidableRel runDescLE := fun a b => Nat.decLe b.runId a.runId

instance : IsTotal Run runDescLE :=
  ⟨fun a b => (Nat.le_total b.runId a.runId).imp id id⟩

instance : IsTrans Run runDescLE :=
  ⟨fun _ _ _ h1 h2 => Nat.le_trans h2 h1⟩

/-- Result shape of `runs.list`. -/
structure ListResult where
  data : List Run
  hasMore : Bool
  cursor : Option Nat
deriving DecidableEq, Repr

/-- `runs.list`: filter, `ORDER BY runId DESC` (embedded as an insertion
sort), `LIMIT limit+1`; return the first `limit` rows,
`hasMore = fetched > limit`, cursor = last returned `runId`. -/
def runsList (table : List Run) (p : ListParams) : ListResult :=
  let all := (List.insertionSort runDescLE (table.filter (runsMatch p))).take
    (p.limit + 1)
  let values := all.take p.limit
  { data := values
    hasMore := decide (p.limit < all.length)
    cursor := values.getLast?.map Run.runId }

/-- The documented client-side pagination loop: request pages of size `k`,
feeding each returned cursor into the next request while `hasMore`; `fuel`
bounds the recursion. -/
def collectPages (table : List Run) (wf : Option String)
    (stf : Option RunStatus) (k : Nat) : Nat → Option Nat → List Run
  | 0, _ => []
  | fuel + 1, cur =>
    let res := runsList table ⟨k, cur, wf, stf⟩
    res.data ++
      (if res.hasMore then collectPages table wf stf k fuel res.cursor else [])

/-! ## Polling streamer (`src/streaming/polling-streaming.ts`) -/

/-- A row of the stream-chunks table. -/
structure ChunkRow where
  streamId : String
  chunkId : Nat
  chunkData : List Nat
  eof : Bool
deriving DecidableEq, Repr

/-- Streamer state: the chunks table plus the monotonic ULID counter behind
`genChunkId`. -/
structure StreamState where
  rows : List ChunkRow
  nextChunk : Nat
deriving DecidableEq, Repr

/-- `writeToStream`: insert a non-EOF chunk with a fresh monotonic id. -/
def writeToStream (st : StreamState) (name : String) (chunk : List Nat) :
    StreamState :=
  ⟨st.rows ++ [⟨name, st.nextChunk, chunk, false⟩], st.nextChunk + 1⟩

/-- `closeStream`: insert a zero-length chunk with `eof=true`. -/
def closeStream (st : StreamState) (name : String) : StreamState :=
  ⟨st.rows ++ [⟨name, st.nextChunk, [], true⟩], st.nextChunk + 1⟩

/-- A chunk event as delivered to the reader (`StreamChunkEvent`). -/
structure ChunkEvent where
  id : Nat
  data : List Nat
  eof : Bool
deriving DecidableEq, Repr

/-- The reader-side state of `readFromStream`'s `start` closure:
`lastChunkId` (`''` initially — below every real id — modelled as `none`),
the `startIndex` skip counter, the closed flag, and the chunks whose bytes
were enqueued to the controller so far. -/
structure ReaderState where
  closed : Bool
  lastChunkId : Option Nat
  offset : Nat
  emitted : List ChunkEvent
deriving DecidableEq, Repr

/-- Initial reader state for a given `startIndex`. -/
def ReaderState.init (startIndex : Nat) : ReaderState :=
  ⟨false, none, startIndex, []⟩

/-- The `enqueue` closure of `readFromStream`: drop when closed or when the
id is ≤ the last delivered id; consume the skip counter; otherwise enqueue
non-empty bytes, close on `eof`, and record the id. -/
def enqueueChunk (s : ReaderState) (msg : ChunkEvent) : ReaderState :=
  if s.closed ||
      (match s.lastChunkId with
       | none => false
       | some l => decide (msg.id ≤ l)) then
    s
  else if 0 < s.offset then
    { s with offset := s.offset - 1 }
  else
    { s with
      emitted := if msg.data.isEmpty then s.emitted else s.emitted ++ [msg]
      closed := msg.eof
      lastChunkId := some msg.id }

/-- Deliver a sequence of chunk events to the reader. -/
def readEvents (s : ReaderState) (evs : List ChunkEvent) : ReaderState :=
  evs.foldl enqueueChunk s

/-- Ascending `chunkId` order used by the reader's initial
`SELECT … ORDER BY chunkId`. -/
def chunkAscLE (a b : ChunkRow) : Prop := a.chunkId ≤ b.chunkId

instance : DecidableRel chunkAscLE := fun a b => Nat.decLe a.chunkId b.chunkId

instance : IsTotal ChunkRow chunkAscLE :=
  ⟨fun a b => Nat.le_total a.chunkId b.chunkId⟩

instance : IsTrans ChunkRow chunkAscLE :=
  ⟨fun _ _ _ h1 h2 => Nat.le_trans h1 h2⟩

/-- The reader's initial `SELECT`: all chunks of the stream, ascending by
`chunkId`, turned into events. -/
def selectChunks (rows : List ChunkRow) (name : String) : List ChunkEvent :=
  (List.insertionSort chunkAscLE
    (rows.filter (fun r => r.streamId == name))).map
    (fun r => ⟨r.chunkId, r.chunkData, r.eof⟩)

/-! ## Concrete inputs used by counterexamples and witnesses -/

/-- A payload used by the concrete examples. -/
def msgData0 : MessageData :=
  { id := "abc", data := "m", attempt := 1, messageId := 0
    idempotencyKey := none }

/-- A job abandoned by a crashed worker: `status='processing'`, lock expired
(`lockedUntil = 999 < now = 1000`), due (`scheduledFor = 0`). -/
def crashedJob : Job :=
  { id := 1, queueName := "workflow_flows", payload := msgData0
    status := .processing, attempts := 1, maxAttempts := 3
    lockedUntil := some 999, scheduledFor := 0
    idempotencyKey := none, error := none }

/-- The row `pollQueue` reads before the *second* failure: the first cycle
left `attempts = 1` (the lease increments, the retry `UPDATE` does not
reset). -/
def secondFailJob : Job :=
  { id := 5, queueName := "workflow_flows", payload := msgData0
    status := .pending, attempts := 1, maxAttempts := 3
    lockedUntil := none, scheduledFor := 0
    idempotencyKey := none, error := none }

/-- A freshly enqueued job about to fail for the first time. -/
def firstFailJob : Job :=
  { id := 6, queueName := "workflow_flows", payload := msgData0
    status := .pending, attempts := 0, maxAttempts := 3
    lockedUntil := none, scheduledFor := 0
    idempotencyKey := none, error := none }

/-- A stale job row carrying idempotency key `"K"` on the *steps* job queue,
already `failed`. -/
def staleJob : Job :=
  { id := 2, queueName := "workflow_steps", payload := msgData0
    status := .failed, attempts := 3, maxAttempts := 3
    lockedUntil := none, scheduledFor := 0
    idempotencyKey := some "K", error := some "err" }

/-- A run sitting in `status='pending'` (never started). -/
def pendingRun : Run :=
  { runId := 0, deploymentId := "d1", workflowName := "w", status := .pending
    input := "[]", output := none, error := none
    startedAt := none, completedAt := none }

/-- A run sitting in `status='paused'`. -/
def pausedRun : Run :=
  { runId := 0, deploymentId := "d1", workflowName := "w", status := .paused
    input := "[]", output := none, error := none
    startedAt := some 1, completedAt := none }

/-- A sequence of `writeToStream` calls for one stream. -/
def writeAll (st : StreamState) (name : String)
    (datas : List (List Nat)) : StreamState :=
  datas.foldl (fun s d => writeToStream s name d) st

/-- The chunk rows produced by consecutive writes beginning at ULID `n`
(specification-side description of `writeAll`'s effect). -/
def chunkRowsFrom (name : String) (n : Nat) : List (List Nat) → List ChunkRow
  | [] => []
  | d :: ds => ⟨name, n, d, false⟩ :: chunkRowsFrom name (n + 1) ds

/-- The corresponding reader events. -/
def chunkEventsFrom (n : Nat) : List (List Nat) → List ChunkEvent
  | [] => []
  | d :: ds => ⟨n, d, false⟩ :: chunkEventsFrom (n + 1) ds

/-- `lastChunkId` is strictly below `i` (with `none` — the initial `''` —
below everything). -/
def lastLT : Option Nat → Nat → Prop
  | none, _ => True
  | some l, i => l < i

/-- The end-to-end scenario of §8 "Stream ordering": `K` writes then
`closeStream`, then one reader consuming the initial `SELECT`'s events. -/
def streamScenario (name : String) (datas : List (List Nat)) : ReaderState :=
  readEvents (ReaderState.init 0)
    (selectChunks (closeStream (writeAll ⟨[], 0⟩ name datas) name).rows name)

/-- Three stored runs with distinct ids (insertion order 3, 1, 2). -/
def runA : Run :=
  { runId := 3, deploymentId := "d1", workflowName := "w", status := .pending
    input := "[]", output := none, error := none
    startedAt := none, completedAt := none }

/-- Second stored run. -/
def runB : Run :=
  { runId := 1, deploymentId := "d1", workflowName := "w", status := .pending
    input := "[]", output := none, error := none
    startedAt := none, completedAt := none }

/-- Third stored run. -/
def runC : Run :=
  { runId := 2, deploymentId := "d1", workflowName := "w", status := .pending
    input := "[]", output := none, error := none
    startedAt := none, completedAt := none }

/-- Creation input shared by the run-trace examples. -/
def d0 : CreateData := ⟨"d1", "w", "[]"⟩

/-- The trace `create; pause; resume` (pause is unguarded, so it applies to
the pending run; resume then moves it to running without `startedAt`). -/
def cex4Ops : List (RunOp × Nat) :=
  [(.create d0, 0), (.pause 0, 1), (.resume 0, 2)]

/-- The run produced by `cex4Ops`: running, yet `startedAt` is null. -/
def cex4Run : Run :=
  { runId := 0, deploymentId := "d1", workflowName := "w"
    status := .running, input := "[]", output := none, error := none
    startedAt := none, completedAt := none }

/-- The trace `create; update(status:=running)`. -/
def c4wOps : List (RunOp × Nat) :=
  [(.create d0, 0), (.update 0 ⟨some .running, none, none⟩, 5)]

/-- The run produced by `c4wOps`. -/
def c4wRun : Run :=
  { runId := 0, deploymentId := "d1", workflowName := "w"
    status := .running, input := "[]", output := none, error := none
    startedAt := some 5, completedAt := none }

/-- A patch moving a run to `completed`. -/
def completePatch : RunPatch := ⟨some .completed, none, none⟩

/-- The trace `create; update(completed) at t=1; update(completed) at t=2`. -/
def cex5Ops : List (RunOp × Nat) :=
  [(.create d0, 0), (.update 0 completePatch, 1), (.update 0 completePatch, 2)]

/-- The trace `create; cancel at t=4`. -/
def c5wOps : List (RunOp × Nat) := [(.create d0, 0), (.cancel 0, 4)]

/-- The run produced by `c5wOps`. -/
def c5wRun : Run :=
  { runId := 0, deploymentId := "d1", workflowName := "w"
    status := .cancelled, input := "[]", output := none, error := none
    startedAt := none, completedAt := some 4 }

/-! # Helper lemmas -/

/-- An `UPDATE` whose `WHERE` matches no row leaves the table unchanged. -/
theorem map_update_noop {α : Type} (l : List α) (p : α → Prop)
    [DecidablePred p] (f : α → α) (h : ∀ x ∈ l, ¬ p x) :
    (l.map fun x => if p x then f x else x) = l := by
  have hx : ∀ x ∈ l, (if p x then f x else x) = x := by
    intro x hxl
    rw [if_neg (h x hxl)]
  rw [List.map_congr_left hx]
  simp

/-- In a table whose keys are pairwise distinct, two rows with the same key
are the same row. -/
theorem pairwise_key_eq {α β : Type} (key : α → β) (l : List α)
    (h : l.Pairwise fun a b => key a ≠ key b) :
    ∀ x ∈ l, ∀ y ∈ l, key x = key y → x = y := by
  induction l with
  | nil => simp
  | cons a t ih =>
    obtain ⟨h1, h2⟩ := List.pairwise_cons.mp h
    intro x hx y hy hkey
    rcases List.mem_cons.mp hx with rfl | hx' <;>
      rcases List.mem_cons.mp hy with rfl | hy'
    · rfl
    · exact absurd hkey (h1 y hy')
    · exact absurd hkey.symm (h1 x hx')
    · exact ih h2 x hx' y hy' hkey

/-- `SELECT … WHERE key = ? LIMIT 1` commutes with a key-preserving
`UPDATE` of the whole table. -/
theorem find?_pk_map_update {α : Type} (l : List α) (key : α → Nat) (id : Nat)
    (f : α → α) (hkey : ∀ x, key (f x) = key x) :
    (l.map f).find? (fun x => key x == id) =
      (l.find? (fun x => key x == id)).map f := by
  induction l with
  | nil => rfl
  | cons a t ih =>
    by_cases h : (key a == id) = true
    · simp [List.find?_cons, hkey a, h]
    · simp only [List.map_cons, List.find?_cons, hkey a]
      rw [Bool.not_eq_true] at h
      simp [h, ih]

theorem rowEvolve_refl (x : Run) : RowEvolve x x :=
  ⟨rfl, fun _ ht => ht, fun h => Or.inl h, fun t ht => ⟨t, ht⟩,
    fun h => Or.inl h, fun _ => Or.inr ⟨rfl, rfl⟩⟩

/-- The `UPDATE … WHERE` of `cancel` evolves each row. -/
theorem rowEvolve_cancel (x : Run) (id now : Nat) :
    RowEvolve x (if x.runId == id then
      { x with status := .cancelled, completedAt := some now } else x) := by
  by_cases h : (x.runId == id) = true
  · rw [if_pos h]
    exact ⟨rfl, fun _ ht => ht, fun hn => Or.inl hn, fun _ _ => ⟨now, rfl⟩,
      fun _ => Or.inr rfl, fun _ => Or.inl (by simp)⟩
  · rw [Bool.not_eq_true] at h
    rw [h]
    simpa using rowEvolve_refl x

/-- The `UPDATE … WHERE` of `pause` evolves each row. -/
theorem rowEvolve_pause (x : Run) (id : Nat) :
    RowEvolve x (if x.runId == id then { x with status := .paused } else x)
    := by
  by_cases h : (x.runId == id) = true
  · rw [if_pos h]
    refine ⟨rfl, fun _ ht => ht, fun hn => Or.inl hn, fun t ht => ⟨t, ht⟩,
      fun hn => Or.inl hn, fun hterm => ?_⟩
    simp [RunStatus.isTerminal] at hterm
  · rw [Bool.not_eq_true] at h
    rw [h]
    simpa using rowEvolve_refl x

/-- The `UPDATE … WHERE` of `resume` evolves each row. -/
theorem rowEvolve_resume (x : Run) (id : Nat) :
    RowEvolve x (if x.runId == id && x.status == .paused then
      { x with status := .running } else x) := by
  by_cases h : (x.runId == id && x.status == .paused) = true
  · rw [if_pos h]
    refine ⟨rfl, fun _ ht => ht, fun _ => Or.inr rfl, fun t ht => ⟨t, ht⟩,
      fun hn => Or.inl hn, fun hterm => ?_⟩
    simp [RunStatus.isTerminal] at hterm
  · rw [Bool.not_eq_true] at h
    rw [h]
    simpa using rowEvolve_refl x

theorem updateSetFn_runId (c : Run) (p : RunPatch) (now : Nat) (r : Run) :
    (updateSetFn c p now r).runId = r.runId := by
  unfold updateSetFn applyPatch
  by_cases h1 : (p.status == some .running && c.startedAt == none) = true <;>
    by_cases h2 : (p.status == some .completed || p.status == some .failed ||
      p.status == some .cancelled) = true <;>
    simp [h1, h2]

/-- The column assignments of `runs.update`, applied to the row that was
pre-read as `currentRun`, evolve that row. -/
theorem rowEvolve_setFn_self (x : Run) (p : RunPatch) (now : Nat) :
    RowEvolve x (updateSetFn x p now x) := by
  unfold updateSetFn applyPatch
  by_cases h1 : (p.status == some .running && x.startedAt == none) = true
  · have hps : p.status = some .running := by
      have := (Bool.and_eq_true _ _ ▸ h1).1
      simpa using this
    have hxs : x.startedAt = none := by
      have := (Bool.and_eq_true _ _ ▸ h1).2
      simpa using this
    have h2 : (p.status == some .completed || p.status == some .failed ||
        p.status == some .cancelled) = false := by
      rw [hps]
      rfl
    simp only [h1, h2, eq_self_iff_true, Bool.false_eq_true, if_true,
      if_false]
    refine ⟨rfl, fun t ht => ?_, fun _ => Or.inr ?_, fun t ht => ⟨t, ht⟩,
      fun hn => Or.inl hn, fun hterm => ?_⟩
    · rw [hxs] at ht
      exact absurd ht (by simp)
    · simp [hps]
    · rw [hps] at hterm
      simp [RunStatus.isTerminal] at hterm
  · rw [Bool.not_eq_true] at h1
    by_cases h2 : (p.status == some .completed || p.status == some .failed ||
        p.status == some .cancelled) = true
    · have hterm2 : ∀ s, p.status = some s → s.isTerminal = true := by
        intro s hs
        rw [hs] at h2
        rcases Bool.or_eq_true _ _ ▸ h2 with h | h
        · rcases Bool.or_eq_true _ _ ▸ h with h' | h'
          · have : s = .completed := by simpa using h'
            rw [this]; rfl
          · have : s = .failed := by simpa using h'
            rw [this]; rfl
        · have : s = .cancelled := by simpa using h
          rw [this]; rfl
      have hsome : ∃ s, p.status = some s := by
        cases hps : p.status with
        | none => rw [hps] at h2; exact absurd h2 (by simp)
        | some s => exact ⟨s, rfl⟩
      obtain ⟨s, hps⟩ := hsome
      simp only [h1, h2, eq_self_iff_true, Bool.false_eq_true, if_true,
        if_false]
      refine ⟨rfl, fun t ht => ht, fun hn => Or.inl hn, fun _ _ => ⟨now, rfl⟩,
        fun _ => Or.inr ?_, fun _ => Or.inl (by simp)⟩
      · simp only [hps, Option.getD_some]
        exact hterm2 s hps
    · rw [Bool.not_eq_true] at h2
      simp only [h1, h2, Bool.false_eq_true, if_false]
      refine ⟨rfl, fun t ht => ht, fun hn => Or.inl hn, fun t ht => ⟨t, ht⟩,
        fun hn => Or.inl hn, fun hterm => ?_⟩
      cases hps : p.status with
      | none => exact Or.inr ⟨by simp [hps], rfl⟩
      | some s =>
        rw [hps] at hterm
        simp only [Option.getD_some] at hterm
        rw [hps] at h2
        cases s <;> simp_all [RunStatus.isTerminal]

theorem updateAndReturn_snd {α : Type} (db : DatabaseType) (table : List α)
    (set : α → α) (wpred pkPred : α → Bool) :
    (updateAndReturn db table set wpred pkPred).2 =
      table.map fun r => if wpred r then set r else r := by
  cases db <;> rfl

theorem runsUpdate_snd (db : DatabaseType) (table : List Run) (id : Nat)
    (p : RunPatch) (now : Nat) :
    (runsUpdate db table id p now).2 =
      match table.find? (fun r => r.runId == id) with
      | none => table
      | some c =>
        table.map fun r => if r.runId == id then updateSetFn c p now r else r
      := by
  unfold runsUpdate
  cases hf : table.find? (fun r => r.runId == id) with
  | none => rfl
  | some c =>
    simp only
    cases h1 : (updateAndReturn db table (updateSetFn c p now)
        (fun r => r.runId == id) (fun r => r.runId == id)).1 <;>
      simp only [h1] <;>
      exact updateAndReturn_snd db table (updateSetFn c p now)
        (fun r => r.runId == id) (fun r => r.runId == id)

theorem runsPause_snd (db : DatabaseType) (table : List Run) (id : Nat) :
    (runsPause db table id).2 =
      table.map fun r =>
        if r.runId == id then { r with status := .paused } else r := by
  unfold runsPause
  cases h1 : (updateAndReturn db table
      (fun r => { r with status := RunStatus.paused })
      (fun r => r.runId == id) (fun r => r.runId == id)).1 <;>
    simp only [h1] <;>
    exact updateAndReturn_snd db table
      (fun r => { r with status := RunStatus.paused })
      (fun r => r.runId == id) (fun r => r.runId == id)

theorem runsResume_snd (db : DatabaseType) (table : List Run) (id : Nat) :
    (runsResume db table id).2 =
      table.map fun r =>
        if r.runId == id && r.status == .paused then
          { r with status := .running }
        else r := by
  unfold runsResume
  cases h1 : (updateAndReturn db table
      (fun r => { r with status := RunStatus.running })
      (fun r => r.runId == id && r.status == .paused)
      (fun r => r.runId == id)).1 <;>
    simp only [h1] <;>
    exact updateAndReturn_snd db table
      (fun r => { r with status := RunStatus.running })
      (fun r => r.runId == id && r.status == .paused)
      (fun r => r.runId == id)

theorem runsCancel_snd (db : DatabaseType) (table : List Run) (id now : Nat) :
    (runsCancel db table id now).2 =
      table.map fun r =>
        if r.runId == id then
          { r with status := .cancelled, completedAt := some now }
        else r := by
  unfold runsCancel
  cases h1 : (updateAndReturn db table
      (fun r => { r with status := RunStatus.cancelled
                         completedAt := some now })
      (fun r => r.runId == id) (fun r => r.runId == id)).1 <;>
    simp only [h1] <;>
    exact updateAndReturn_snd db table
      (fun r => { r with status := RunStatus.cancelled
                         completedAt := some now })
      (fun r => r.runId == id) (fun r => r.runId == id)

theorem runsCreate_snd_of_fresh (db : DatabaseType) (table : List Run)
    (next : Nat) (d : CreateData) (hfresh : ∀ r ∈ table, r.runId < next) :
    (runsCreate db table next d).2 = table ++ [freshRun next d] := by
  have hfind : table.find? (fun r => r.runId == next) = none := by
    rw [List.find?_eq_none]
    intro x hx
    have := hfresh x hx
    simp only [beq_iff_eq]
    omega
  have hany : table.any (fun r => r.runId == next) = false := by
    rw [List.any_eq_false]
    intro x hx
    have := hfresh x hx
    simp only [beq_iff_eq]
    omega
  cases db <;>
    simp only [runsCreate, insertAndReturn, hfind, hany, Bool.false_eq_true,
      if_false] <;>
    cases hres : (table ++ [freshRun next d]).find?
        (fun r => r.runId == next) <;>
    rfl

/-- The common shape argument: a key-preserving `UPDATE` of the whole table
keeps the invariant and evolves every row (in both directions). -/
theorem step_map (st : RunsState) (hinv : RunsInv st) (f : Run → Run)
    (next : Nat) (hnext : st.nextUlid ≤ next)
    (hf : ∀ x ∈ st.table, RowEvolve x (f x)) :
    RunsInv ⟨st.table.map f, next⟩ ∧
    (∀ y ∈ st.table.map f, ∃ x ∈ st.table, RowEvolve x y) ∧
    (∀ x ∈ st.table, ∃ y ∈ st.table.map f, RowEvolve x y) := by
  obtain ⟨hpw, hbound⟩ := hinv
  refine ⟨⟨?_, ?_⟩, ?_, ?_⟩
  · rw [List.pairwise_map]
    refine hpw.imp_of_mem ?_
    intro a b ha hb hab
    rw [(hf a ha).1, (hf b hb).1]
    exact hab
  · intro y hy
    obtain ⟨x, hx, rfl⟩ := List.mem_map.mp hy
    rw [(hf x hx).1]
    exact lt_of_lt_of_le (hbound x hx) hnext
  · intro y hy
    obtain ⟨x, hx, rfl⟩ := List.mem_map.mp hy
    exact ⟨x, hx, hf x hx⟩
  · intro x hx
    exact ⟨f x, List.mem_map_of_mem f hx, hf x hx⟩

/-- One storage operation keeps the state invariant; every post-state row
either evolves from a pre-state row or is a freshly created pending row; and
every pre-state row has an evolved image. -/
theorem applyOp_step (db : DatabaseType) (st : RunsState) (op : RunOp)
    (now : Nat) (hinv : RunsInv st) :
    RunsInv (applyOp db st op now) ∧
    (∀ y ∈ (applyOp db st op now).table,
      (∃ x ∈ st.table, RowEvolve x y) ∨
      (y.startedAt = none ∧ y.completedAt = none ∧ y.status = .pending)) ∧
    (∀ x ∈ st.table, ∃ y ∈ (applyOp db st op now).table, RowEvolve x y) := by
  obtain ⟨hpw, hbound⟩ := hinv
  cases op with
  | create d =>
    have hstate : applyOp db st (.create d) now =
        ⟨st.table ++ [freshRun st.nextUlid d], st.nextUlid + 1⟩ := by
      show (⟨(runsCreate db st.table st.nextUlid d).2, st.nextUlid + 1⟩ :
        RunsState) = _
      rw [runsCreate_snd_of_fresh db st.table st.nextUlid d hbound]
    rw [hstate]
    refine ⟨⟨?_, ?_⟩, ?_, ?_⟩
    · rw [List.pairwise_append]
      refine ⟨hpw, List.pairwise_singleton _ _, ?_⟩
      intro a ha b hb
      have hb' : b = freshRun st.nextUlid d := List.mem_singleton.mp hb
      rw [hb']
      exact Nat.ne_of_lt (hbound a ha)
    · intro r hr
      rcases List.mem_append.mp hr with h | h
      · exact Nat.lt_succ_of_lt (hbound r h)
      · rw [List.mem_singleton.mp h]
        exact Nat.lt_succ_self _
    · intro y hy
      rcases List.mem_append.mp hy with h | h
      · exact Or.inl ⟨y, h, rowEvolve_refl y⟩
      · rw [List.mem_singleton.mp h]
        exact Or.inr ⟨rfl, rfl, rfl⟩
    · intro x hx
      exact ⟨x, List.mem_append_left _ hx, rowEvolve_refl x⟩
  | update id p =>
    cases hf : st.table.find? (fun r => r.runId == id) with
    | none =>
      have hstate : applyOp db st (.update id p) now = ⟨st.table, st.nextUlid⟩
          := by
        show (⟨(runsUpdate db st.table id p now).2, st.nextUlid⟩ :
          RunsState) = _
        rw [runsUpdate_snd, hf]
      rw [hstate]
      exact ⟨⟨hpw, hbound⟩,
        fun y hy => Or.inl ⟨y, hy, rowEvolve_refl y⟩,
        fun x hx => ⟨x, hx, rowEvolve_refl x⟩⟩
    | some c =>
      have hstate : applyOp db st (.update id p) now =
          ⟨st.table.map fun r =>
            if r.runId == id then updateSetFn c p now r else r,
            st.nextUlid⟩ := by
        show (⟨(runsUpdate db st.table id p now).2, st.nextUlid⟩ :
          RunsState) = _
        rw [runsUpdate_snd, hf]
      have hf2 : ∀ x ∈ st.table, RowEvolve x
          (if x.runId == id then updateSetFn c p now x else x) := by
        intro x hx
        by_cases hid : (x.runId == id) = true
        · have hc : c ∈ st.table := List.mem_of_find?_eq_some hf
          have hcid0 := List.find?_some hf
          have hcid : (c.runId == id) = true := hcid0
          have hxc : x = c := by
            refine pairwise_key_eq Run.runId st.table hpw x hx c hc ?_
            have h1 : x.runId = id := by simpa using hid
            have h2 : c.runId = id := by simpa using hcid
            rw [h1, h2]
          rw [if_pos hid, ← hxc]
          exact rowEvolve_setFn_self x p now
        · rw [Bool.not_eq_true] at hid
          rw [hid]
          simpa using rowEvolve_refl x
      have hstep := step_map st ⟨hpw, hbound⟩ _ st.nextUlid le_rfl hf2
      rw [hstate]
      exact ⟨hstep.1, fun y hy => Or.inl (hstep.2.1 y hy), hstep.2.2⟩
  | pause id =>
    have hstate : applyOp db st (.pause id) now =
        ⟨st.table.map fun r =>
          if r.runId == id then { r with status := .paused } else r,
          st.nextUlid⟩ := by
      show (⟨(runsPause db st.table id).2, st.nextUlid⟩ : RunsState) = _
      rw [runsPause_snd]
    have hstep := step_map st ⟨hpw, hbound⟩ _ st.nextUlid le_rfl
      (fun x _ => rowEvolve_pause x id)
    rw [hstate]
    exact ⟨hstep.1, fun y hy => Or.inl (hstep.2.1 y hy), hstep.2.2⟩
  | resume id =>
    have hstate : applyOp db st (.resume id) now =
        ⟨st.table.map fun r =>
          if r.runId == id && r.status == .paused then
            { r with status := .running }
          else r,
          st.nextUlid⟩ := by
      show (⟨(runsResume db st.table id).2, st.nextUlid⟩ : RunsState) = _
      rw [runsResume_snd]
    have hstep := step_map st ⟨hpw, hbound⟩ _ st.nextUlid le_rfl
      (fun x _ => rowEvolve_resume x id)
    rw [hstate]
    exact ⟨hstep.1, fun y hy => Or.inl (hstep.2.1 y hy), hstep.2.2⟩
  | cancel id =>
    have hstate : applyOp db st (.cancel id) now =
        ⟨st.table.map fun r =>
          if r.runId == id then
            { r with status := .cancelled, completedAt := some now }
          else r,
          st.nextUlid⟩ := by
      show (⟨(runsCancel db st.table id now).2, st.nextUlid⟩ : RunsState) = _
      rw [runsCancel_snd]
    have hstep := step_map st ⟨hpw, hbound⟩ _ st.nextUlid le_rfl
      (fun x _ => rowEvolve_cancel x id now)
    rw [hstate]
    exact ⟨hstep.1, fun y hy => Or.inl (hstep.2.1 y hy), hstep.2.2⟩

theorem execFrom_append (db : DatabaseType) (st : RunsState)
    (l1 l2 : List (RunOp × Nat)) :
    execFrom db st (l1 ++ l2) = execFrom db (execFrom db st l1) l2 := by
  simp [execFrom, List.foldl_append]

theorem execTrace_append_one (db : DatabaseType) (ops : List (RunOp × Nat))
    (o : RunOp × Nat) :
    execTrace db (ops ++ [o]) = applyOp db (execTrace db ops) o.1 o.2 := by
  rw [execTrace, execFrom_append]
  rfl

theorem runsInv_execFrom (db : DatabaseType) (ops : List (RunOp × Nat)) :
    ∀ st : RunsState, RunsInv st → RunsInv (execFrom db st ops) := by
  induction ops with
  | nil => exact fun st h => h
  | cons o t ih =>
    intro st h
    exact ih _ (applyOp_step db st o.1 o.2 h).1

theorem runsInv_execTrace (db : DatabaseType) (ops : List (RunOp × Nat)) :
    RunsInv (execTrace db ops) :=
  runsInv_execFrom db ops ⟨[], 0⟩ ⟨List.Pairwise.nil, by simp⟩

/-- Across any further operations, an already-set `startedAt` of a run is
carried unchanged to the row with the same id. -/
theorem startedAt_stable_execFrom (db : DatabaseType)
    (ops : List (RunOp × Nat)) :
    ∀ (st : RunsState), RunsInv st → ∀ r ∈ st.table, ∀ t,
      r.startedAt = some t →
      ∀ r' ∈ (execFrom db st ops).table, r'.runId = r.runId →
        r'.startedAt = some t := by
  induction ops with
  | nil =>
    intro st hinv r hr t ht r' hr' hid
    have : r' = r := pairwise_key_eq Run.runId st.table hinv.1 r' hr' r hr hid
    rw [this, ht]
  | cons o tl ih =>
    intro st hinv r hr t ht r' hr' hid
    obtain ⟨hinv', _, hfwd⟩ := applyOp_step db st o.1 o.2 hinv
    obtain ⟨y, hy, hev⟩ := hfwd r hr
    have hys : y.startedAt = some t := hev.2.1 t ht
    have hyid : y.runId = r.runId := hev.1
    exact ih (applyOp db st o.1 o.2) hinv' y hy t hys r' hr'
      (by rw [hid, ← hyid])

/-- Across any further operations, a non-null `completedAt` of a run stays
non-null on the row with the same id. -/
theorem completedAt_stays_execFrom (db : DatabaseType)
    (ops : List (RunOp × Nat)) :
    ∀ (st : RunsState), RunsInv st → ∀ r ∈ st.table,
      r.completedAt ≠ none →
      ∀ r' ∈ (execFrom db st ops).table, r'.runId = r.runId →
        r'.completedAt ≠ none := by
  induction ops with
  | nil =>
    intro st hinv r hr ht r' hr' hid
    have : r' = r := pairwise_key_eq Run.runId st.table hinv.1 r' hr' r hr hid
    rw [this]
    exact ht
  | cons o tl ih =>
    intro st hinv r hr ht r' hr' hid
    obtain ⟨hinv', _, hfwd⟩ := applyOp_step db st o.1 o.2 hinv
    obtain ⟨y, hy, hev⟩ := hfwd r hr
    obtain ⟨t, htc⟩ := Option.ne_none_iff_exists'.mp ht
    obtain ⟨u, hu⟩ := hev.2.2.2.1 t htc
    have hyne : y.completedAt ≠ none := by
      rw [hu]
      simp
    have hyid : y.runId = r.runId := hev.1
    exact ih (applyOp db st o.1 o.2) hinv' y hy hyne r' hr'
      (by rw [hid, ← hyid])

theorem observedRunning_mono (db : DatabaseType) (ops more : List (RunOp × Nat))
    (id : Nat) (h : observedRunning db ops id) :
    observedRunning db (ops ++ more) id := by
  obtain ⟨n, r, hr, hid, hst⟩ := h
  by_cases hn : n ≤ ops.length
  · refine ⟨n, r, ?_, hid, hst⟩
    rw [List.take_append_of_le_length hn]
    exact hr
  · refine ⟨ops.length, r, ?_, hid, hst⟩
    rw [List.take_left]
    rw [List.take_of_length_le (le_of_not_le hn)] at hr
    exact hr

/-- Every run whose `startedAt` is set was at some prefix of the trace
observed with `status='running'`. -/
theorem startedAt_implies_observedRunning (db : DatabaseType)
    (ops : List (RunOp × Nat)) :
    ∀ r ∈ (execTrace db ops).table, r.startedAt ≠ none →
      observedRunning db ops r.runId := by
  induction ops using List.reverseRecOn with
  | nil =>
    intro r hr
    simp [execTrace, execFrom] at hr
  | append_singleton ops o ih =>
    intro r hr hne
    rw [execTrace_append_one] at hr
    obtain ⟨_, hback, _⟩ :=
      applyOp_step db (execTrace db ops) o.1 o.2 (runsInv_execTrace db ops)
    rcases hback r hr with ⟨x, hx, hev⟩ | ⟨hs, _, _⟩
    · by_cases hxs : x.startedAt = none
      · rcases hev.2.2.1 hxs with hnone | hrun
        · exact absurd hnone hne
        · refine ⟨(ops ++ [o]).length, r, ?_, rfl, hrun⟩
          rw [List.take_length, execTrace_append_one]
          exact hr
      · have hobs := ih x hx hxs
        have := observedRunning_mono db ops [o] x.runId hobs
        rw [← hev.1] at this
        exact this
    · exact absurd hs hne

/-- Every run in a terminal status has a non-null `completedAt`. -/
theorem terminal_implies_completedAt (db : DatabaseType)
    (ops : List (RunOp × Nat)) :
    ∀ r ∈ (execTrace db ops).table, r.status.isTerminal = true →
      r.completedAt ≠ none := by
  induction ops using List.reverseRecOn with
  | nil =>
    intro r hr
    simp [execTrace, execFrom] at hr
  | append_singleton ops o ih =>
    intro r hr hterm
    rw [execTrace_append_one] at hr
    obtain ⟨_, hback, _⟩ :=
      applyOp_step db (execTrace db ops) o.1 o.2 (runsInv_execTrace db ops)
    rcases hback r hr with ⟨x, hx, hev⟩ | ⟨_, _, hs⟩
    · rcases hev.2.2.2.2.2 hterm with hne | ⟨hstat, hcomp⟩
      · exact hne
      · rw [hcomp]
        exact ih x hx (by rw [← hstat]; exact hterm)
    · rw [hs] at hterm
      simp [RunStatus.isTerminal] at hterm

/-- A patch whose status is terminal always lands `completedAt = now`. -/
theorem updateSetFn_completedAt (c : Run) (p : RunPatch) (now : Nat) (r : Run)
    (h2 : (p.status == some .completed || p.status == some .failed ||
      p.status == some .cancelled) = true) :
    (updateSetFn c p now r).completedAt = some now := by
  unfold updateSetFn applyPatch
  by_cases h1 : (p.status == some .running && c.startedAt == none) = true <;>
    simp [h1, h2]

theorem writeAll_spec (name : String) (datas : List (List Nat)) :
    ∀ st : StreamState, writeAll st name datas =
      ⟨st.rows ++ chunkRowsFrom name st.nextChunk datas,
        st.nextChunk + datas.length⟩ := by
  induction datas with
  | nil => intro st; simp [writeAll, chunkRowsFrom]
  | cons d ds ih =>
    intro st
    show writeAll (writeToStream st name d) name ds = _
    rw [ih]
    simp only [writeToStream, chunkRowsFrom, List.append_assoc,
      List.singleton_append, List.length_cons]
    congr 1
    omega

theorem chunkRowsFrom_streamId (name : String) :
    ∀ (ds : List (List Nat)) (n : Nat) (r : ChunkRow),
      r ∈ chunkRowsFrom name n ds → r.streamId = name := by
  intro ds
  induction ds with
  | nil => intro n r hr; simp [chunkRowsFrom] at hr
  | cons d t ih =>
    intro n r hr
    rcases List.mem_cons.mp hr with rfl | h
    · rfl
    · exact ih (n + 1) r h

theorem chunkRowsFrom_bounds (name : String) :
    ∀ (ds : List (List Nat)) (n : Nat) (r : ChunkRow),
      r ∈ chunkRowsFrom name n ds →
      n ≤ r.chunkId ∧ r.chunkId < n + ds.length := by
  intro ds
  induction ds with
  | nil => intro n r hr; simp [chunkRowsFrom] at hr
  | cons d t ih =>
    intro n r hr
    rcases List.mem_cons.mp hr with rfl | h
    · simp
    · have := ih (n + 1) r h
      constructor <;> [omega; (simp only [List.length_cons]; omega)]

theorem chunkRowsFrom_sorted (name : String) :
    ∀ (ds : List (List Nat)) (n : Nat),
      List.Sorted chunkAscLE (chunkRowsFrom name n ds) := by
  intro ds
  induction ds with
  | nil => intro n; exact List.sorted_nil
  | cons d t ih =>
    intro n
    rw [chunkRowsFrom, List.sorted_cons]
    refine ⟨?_, ih (n + 1)⟩
    intro b hb
    have := (chunkRowsFrom_bounds name t (n + 1) b hb).1
    show n ≤ b.chunkId
    omega

theorem chunkRowsFrom_map_events (name : String) :
    ∀ (ds : List (List Nat)) (n : Nat),
      (chunkRowsFrom name n ds).map
        (fun r => (⟨r.chunkId, r.chunkData, r.eof⟩ : ChunkEvent)) =
      chunkEventsFrom n ds := by
  intro ds
  induction ds with
  | nil => intro n; rfl
  | cons d t ih =>
    intro n
    simp only [chunkRowsFrom, chunkEventsFrom, List.map_cons, ih (n + 1)]

theorem chunkEventsFrom_data :
    ∀ (ds : List (List Nat)) (n : Nat),
      (chunkEventsFrom n ds).map ChunkEvent.data = ds := by
  intro ds
  induction ds with
  | nil => intro n; rfl
  | cons d t ih => intro n; simp only [chunkEventsFrom, List.map_cons, ih]

theorem chunkEventsFrom_bounds :
    ∀ (ds : List (List Nat)) (n : Nat) (e : ChunkEvent),
      e ∈ chunkEventsFrom n ds → n ≤ e.id ∧ e.id < n + ds.length := by
  intro ds
  induction ds with
  | nil => intro n e he; simp [chunkEventsFrom] at he
  | cons d t ih =>
    intro n e he
    rcases List.mem_cons.mp he with rfl | h
    · simp
    · have := ih (n + 1) e h
      constructor <;> [omega; (simp only [List.length_cons]; omega)]

theorem chunkEventsFrom_eof :
    ∀ (ds : List (List Nat)) (n : Nat) (e : ChunkEvent),
      e ∈ chunkEventsFrom n ds → e.eof = false := by
  intro ds
  induction ds with
  | nil => intro n e he; simp [chunkEventsFrom] at he
  | cons d t ih =>
    intro n e he
    rcases List.mem_cons.mp he with rfl | h
    · rfl
    · exact ih (n + 1) e h

theorem chunkEventsFrom_nonempty (ds : List (List Nat))
    (hne : ∀ d ∈ ds, d ≠ []) :
    ∀ (n : Nat) (e : ChunkEvent),
      e ∈ chunkEventsFrom n ds → e.data.isEmpty = false := by
  induction ds with
  | nil => intro n e he; simp [chunkEventsFrom] at he
  | cons d t ih =>
    intro n e he
    rcases List.mem_cons.mp he with rfl | h
    · have : d ≠ [] := hne d (List.mem_cons_self d t)
      simpa [List.isEmpty_iff] using this
    · exact ih (fun x hx => hne x (List.mem_cons_of_mem d hx)) (n + 1) e h

theorem chunkEventsFrom_chain :
    ∀ (ds : List (List Nat)) (n : Nat),
      List.Chain' (· < ·) ((chunkEventsFrom n ds).map ChunkEvent.id) := by
  intro ds
  induction ds with
  | nil => intro n; exact List.chain'_nil
  | cons d t ih =>
    intro n
    rw [chunkEventsFrom, List.map_cons, List.chain'_cons']
    refine ⟨?_, ih (n + 1)⟩
    intro y hy
    rcases List.mem_map.mp (List.mem_of_mem_head? hy) with ⟨e, he, rfl⟩
    have := (chunkEventsFrom_bounds t (n + 1) e he).1
    show n < e.id
    omega

/-- Delivering, from an open reader with exhausted skip counter, a run of
strictly increasing, non-empty, non-EOF chunks all above `lastChunkId`
enqueues exactly that run, in order. -/
theorem readEvents_all_emitted :
    ∀ (evs : List ChunkEvent) (s : ReaderState),
      s.closed = false → s.offset = 0 →
      (∀ e ∈ evs, e.data.isEmpty = false) →
      (∀ e ∈ evs, e.eof = false) →
      List.Chain' (· < ·) (evs.map ChunkEvent.id) →
      (∀ e ∈ evs, lastLT s.lastChunkId e.id) →
      (readEvents s evs).emitted = s.emitted ++ evs ∧
      (readEvents s evs).closed = false ∧
      (readEvents s evs).offset = 0 ∧
      ((readEvents s evs).lastChunkId = s.lastChunkId ∨
        ∃ e ∈ evs, (readEvents s evs).lastChunkId = some e.id) := by
  intro evs
  induction evs with
  | nil =>
    intro s h1 h2 _ _ _ _
    exact ⟨by simp [readEvents], h1, h2, Or.inl rfl⟩
  | cons e es ih =>
    intro s hcl hoff hdata heof hchain hlast
    have hguard : (s.closed ||
        (match s.lastChunkId with
         | none => false
         | some l => decide (e.id ≤ l))) = false := by
      rw [hcl]
      cases hl : s.lastChunkId with
      | none => rfl
      | some l =>
        have := hlast e (List.mem_cons_self e es)
        rw [hl] at this
        simp only [Bool.false_or]
        simpa [Nat.not_le] using Nat.lt_of_lt_of_le this le_rfl
    have hstep : enqueueChunk s e =
        { s with emitted := s.emitted ++ [e], closed := e.eof
                 lastChunkId := some e.id } := by
      rw [enqueueChunk]
      rw [hguard]
      simp only [Bool.false_eq_true, if_false, hoff]
      rw [if_neg (by omega)]
      rw [hdata e (List.mem_cons_self e es)]
      simp
    have hcl' : (enqueueChunk s e).closed = false := by
      rw [hstep]
      exact heof e (List.mem_cons_self e es)
    have hoff' : (enqueueChunk s e).offset = 0 := by
      rw [hstep]
      exact hoff
    have hmap : (e :: es).map ChunkEvent.id = e.id :: es.map ChunkEvent.id :=
      rfl
    have hpair : List.Pairwise (· < ·) (e.id :: es.map ChunkEvent.id) := by
      rw [← hmap]
      exact List.chain'_iff_pairwise.mp hchain
    have hhead := (List.pairwise_cons.mp hpair).1
    have hlast' : ∀ x ∈ es, lastLT (enqueueChunk s e).lastChunkId x.id := by
      intro x hx
      rw [hstep]
      show e.id < x.id
      exact hhead x.id (List.mem_map_of_mem ChunkEvent.id hx)
    have hchain' : List.Chain' (· < ·) (es.map ChunkEvent.id) := by
      have h := hchain
      rw [hmap] at h
      exact h.tail
    obtain ⟨hemit, hcl2, hoff2, hlastd⟩ := ih (enqueueChunk s e) hcl' hoff'
      (fun x hx => hdata x (List.mem_cons_of_mem e hx))
      (fun x hx => heof x (List.mem_cons_of_mem e hx)) hchain' hlast'
    refine ⟨?_, hcl2, hoff2, ?_⟩
    · show (readEvents (enqueueChunk s e) es).emitted = _
      rw [hemit, hstep]
      simp
    · rcases hlastd with h | ⟨x, hx, hxeq⟩
      · refine Or.inr ⟨e, List.mem_cons_self e es, ?_⟩
        show (readEvents (enqueueChunk s e) es).lastChunkId = some e.id
        rw [h, hstep]
      · exact Or.inr ⟨x, List.mem_cons_of_mem e hx, hxeq⟩

theorem readEvents_append (s : ReaderState) (l1 l2 : List ChunkEvent) :
    readEvents s (l1 ++ l2) = readEvents (readEvents s l1) l2 := by
  simp [readEvents, List.foldl_append]

/-- A closed reader ignores every further event. -/
theorem readEvents_closed_fix (evs : List ChunkEvent) :
    ∀ s : ReaderState, s.closed = true → readEvents s evs = s := by
  induction evs with
  | nil => intro s _; rfl
  | cons e es ih =>
    intro s h
    have : enqueueChunk s e = s := by
      rw [enqueueChunk, h]
      simp
    show readEvents (enqueueChunk s e) es = s
    rw [this]
    exact ih s h

/-- One `enqueue` call preserves strict monotonicity of the delivered
chunk ids (with `lastChunkId` an upper bound of them). -/
theorem enqueueChunk_inv (s : ReaderState) (e : ChunkEvent)
    (h1 : List.Chain' (· < ·) (s.emitted.map ChunkEvent.id))
    (h2 : ∀ x ∈ s.emitted, ∃ l, s.lastChunkId = some l ∧ x.id ≤ l) :
    List.Chain' (· < ·) ((enqueueChunk s e).emitted.map ChunkEvent.id) ∧
    (∀ x ∈ (enqueueChunk s e).emitted, ∃ l,
      (enqueueChunk s e).lastChunkId = some l ∧ x.id ≤ l) := by
  rw [enqueueChunk]
  by_cases hg : (s.closed ||
      (match s.lastChunkId with
       | none => false
       | some l => decide (e.id ≤ l))) = true
  · rw [if_pos hg]
    exact ⟨h1, h2⟩
  · rw [Bool.not_eq_true] at hg
    rw [hg]
    simp only [Bool.false_eq_true, if_false]
    by_cases ho : 0 < s.offset
    · rw [if_pos ho]
      exact ⟨h1, h2⟩
    · rw [if_neg ho]
      have hlt : ∀ x ∈ s.emitted, x.id < e.id := by
        intro x hx
        obtain ⟨l, hl, hxl⟩ := h2 x hx
        have : ¬ (e.id ≤ l) := by
          rw [hl] at hg
          rw [Bool.or_eq_false_iff] at hg
          simpa using hg.2
        omega
      by_cases hd : e.data.isEmpty = true
      · rw [if_pos hd]
        refine ⟨h1, ?_⟩
        intro x hx
        exact ⟨e.id, rfl, Nat.le_of_lt (hlt x hx)⟩
      · rw [if_neg hd]
        constructor
        · rw [List.map_append, List.chain'_append]
          refine ⟨h1, List.chain'_singleton _, ?_⟩
          intro x hx y hy
          simp only [List.map_cons, List.map_nil, List.head?_cons,
            Option.mem_def, Option.some.injEq] at hy
          rcases List.mem_map.mp
            (List.mem_of_mem_getLast? hx) with ⟨z, hz, rfl⟩
          rw [← hy]
          exact hlt z hz
        · intro x hx
          rcases List.mem_append.mp hx with h | h
          · exact ⟨e.id, rfl, Nat.le_of_lt (hlt x h)⟩
          · rw [List.mem_singleton.mp h]
            exact ⟨e.id, rfl, le_rfl⟩

/-- The ids of the chunks a reader has delivered are strictly increasing,
whatever events it is fed. -/
theorem readEvents_chain (evs : List ChunkEvent) :
    ∀ s : ReaderState,
      List.Chain' (· < ·) (s.emitted.map ChunkEvent.id) →
      (∀ x ∈ s.emitted, ∃ l, s.lastChunkId = some l ∧ x.id ≤ l) →
      List.Chain' (· < ·)
        ((readEvents s evs).emitted.map ChunkEvent.id) := by
  induction evs with
  | nil => intro s h1 _; exact h1
  | cons e es ih =>
    intro s h1 h2
    obtain ⟨h1', h2'⟩ := enqueueChunk_inv s e h1 h2
    exact ih (enqueueChunk s e) h1' h2'

theorem orderedInsert_cons (a b : Run) (l : List Run) :
    List.orderedInsert runDescLE a (b :: l) =
      if runDescLE a b then a :: b :: l
      else b :: List.orderedInsert runDescLE a l := rfl

theorem orderedInsert_head (a : Run) :
    ∀ m : List Run, (∀ x ∈ m, runDescLE a x) →
      List.orderedInsert runDescLE a m = a :: m := by
  intro m hm
  cases m with
  | nil => rfl
  | cons b bs =>
    rw [orderedInsert_cons, if_pos (hm b (List.mem_cons_self b bs))]

/-- Filtering commutes with `orderedInsert` into a sorted list (up to
whether the inserted element survives the filter). -/
theorem filter_orderedInsert (p : Run → Bool) (a : Run) :
    ∀ l : List Run, List.Sorted runDescLE l →
      (List.orderedInsert runDescLE a l).filter p =
        if p a then List.orderedInsert runDescLE a (l.filter p)
        else l.filter p := by
  intro l
  induction l with
  | nil =>
    intro _
    rw [List.orderedInsert_nil]
    by_cases hpa : p a = true
    · rw [if_pos hpa, List.filter_cons_of_pos hpa, List.filter_nil,
        List.orderedInsert_nil]
    · rw [if_neg hpa, List.filter_cons_of_neg hpa, List.filter_nil]
  | cons b t ih =>
    intro hs
    have hst : List.Sorted runDescLE t := (List.sorted_cons.mp hs).2
    have hbt : ∀ x ∈ t, runDescLE b x := (List.sorted_cons.mp hs).1
    rw [orderedInsert_cons]
    by_cases hr : runDescLE a b
    · rw [if_pos hr]
      by_cases hpa : p a = true
      · rw [if_pos hpa, List.filter_cons_of_pos hpa]
        by_cases hpb : p b = true
        · rw [List.filter_cons_of_pos hpb, orderedInsert_cons, if_pos hr]
        · rw [List.filter_cons_of_neg hpb]
          have hall : ∀ x ∈ t.filter p, runDescLE a x := by
            intro x hx
            have hxt : x ∈ t := List.mem_of_mem_filter hx
            exact Nat.le_trans (hbt x hxt) hr
          rw [orderedInsert_head a (t.filter p) hall]
      · rw [if_neg hpa, List.filter_cons_of_neg hpa]
    · rw [if_neg hr]
      by_cases hpb : p b = true
      · rw [List.filter_cons_of_pos hpb, ih hst]
        by_cases hpa : p a = true
        · rw [if_pos hpa]
          rw [if_pos hpa, List.filter_cons_of_pos hpb, orderedInsert_cons,
            if_neg hr]
        · rw [if_neg hpa]
          rw [if_neg hpa, List.filter_cons_of_pos hpb]
      · rw [List.filter_cons_of_neg hpb, ih hst]
        by_cases hpa : p a = true
        · rw [if_pos hpa]
          rw [if_pos hpa, List.filter_cons_of_neg hpb]
        · rw [if_neg hpa]
          rw [if_neg hpa, List.filter_cons_of_neg hpb]

/-- The stable insertion sort of `ORDER BY runId DESC` commutes with
filtering. -/
theorem insertionSort_filter (p : Run → Bool) :
    ∀ l : List Run,
      List.insertionSort runDescLE (l.filter p) =
        (List.insertionSort runDescLE l).filter p := by
  intro l
  induction l with
  | nil => rfl
  | cons x t ih =>
    rw [List.insertionSort]
    rw [filter_orderedInsert p x (List.insertionSort runDescLE t)
      (List.sorted_insertionSort runDescLE t)]
    by_cases hpx : p x = true
    · rw [if_pos hpx, List.filter_cons_of_pos hpx, List.insertionSort, ih]
    · rw [if_neg hpx, List.filter_cons_of_neg hpx, ih]

/-- A `≤`-sorted list with pairwise-distinct keys is strictly sorted. -/
theorem sorted_strict (l : List Run) (h : List.Sorted runDescLE l)
    (hnd : l.Pairwise fun a b => a.runId ≠ b.runId) :
    l.Pairwise fun a b => b.runId < a.runId := by
  refine (List.Pairwise.and h hnd).imp ?_
  rintro a b ⟨hle, hne⟩
  exact Nat.lt_of_le_of_ne hle fun heq => hne heq.symm

/-- On a strictly descending list, filtering `runId < (element i).runId`
yields exactly the suffix after position `i`. -/
theorem strict_filter_drop :
    ∀ (L : List Run), (L.Pairwise fun a b => b.runId < a.runId) →
      ∀ (i : Nat) (hi : i < L.length),
      L.filter (fun r => decide (r.runId < (L.get ⟨i, hi⟩).runId)) =
        L.drop (i + 1) := by
  intro L
  induction L with
  | nil =>
    intro _ i hi
    simp at hi
  | cons x t ih =>
    intro hL i hi
    obtain ⟨hhead, htail⟩ := List.pairwise_cons.mp hL
    cases i with
    | zero =>
      have hx : (decide (x.runId < ((x :: t).get ⟨0, hi⟩).runId)) = false := by
        simp
      rw [List.filter_cons_of_neg (by rw [hx]; simp)]
      have : ∀ y ∈ t,
          (fun r => decide (r.runId < ((x :: t).get ⟨0, hi⟩).runId)) y =
            true := by
        intro y hy
        simpa using hhead y hy
      rw [List.filter_eq_self.mpr this]
      rfl
    | succ j =>
      have hj : j < t.length := by
        simpa using hi
      have hget : (x :: t).get ⟨j + 1, hi⟩ = t.get ⟨j, hj⟩ := rfl
      have hxc : (decide (x.runId <
          ((x :: t).get ⟨j + 1, hi⟩).runId)) = false := by
        rw [hget]
        have := hhead (t.get ⟨j, hj⟩) (t.get_mem _ _)
        simpa using Nat.le_of_lt this
      rw [List.filter_cons_of_neg (by rw [hxc]; simp)]
      have := ih htail j hj
      rw [hget]
      exact this

/-- The cursor bound composes with the other filters. -/
theorem runsMatch_cursor (k k' c : Nat) (wf : Option String)
    (stf : Option RunStatus) (table : List Run) :
    table.filter (runsMatch ⟨k, some c, wf, stf⟩) =
      (table.filter (runsMatch ⟨k', none, wf, stf⟩)).filter
        (fun r => decide (r.runId < c)) := by
  rw [List.filter_filter]
  refine (List.filter_congr ?_).symm
  intro x _
  show (decide (x.runId < c) && runsMatch ⟨k', none, wf, stf⟩ x) =
    runsMatch ⟨k, some c, wf, stf⟩ x
  rw [runsMatch, runsMatch]
  simp only [Bool.true_and, Bool.and_assoc]

/-- `runs.list`, with the `LIMIT limit+1` bookkeeping normalised away. -/
theorem runsList_eq (table : List Run) (p : ListParams) :
    runsList table p =
      { data := (List.insertionSort runDescLE
          (table.filter (runsMatch p))).take p.limit
        hasMore := decide (p.limit < (table.filter (runsMatch p)).length)
        cursor := ((List.insertionSort runDescLE
          (table.filter (runsMatch p))).take p.limit).getLast?.map
            Run.runId } := by
  have hlen : (List.insertionSort runDescLE
      (table.filter (runsMatch p))).length =
      (table.filter (runsMatch p)).length :=
    (List.perm_insertionSort runDescLE _).length_eq
  rw [runsList]
  have htt : ((List.insertionSort runDescLE
      (table.filter (runsMatch p))).take (p.limit + 1)).take p.limit =
      (List.insertionSort runDescLE
        (table.filter (runsMatch p))).take p.limit := by
    rw [List.take_take]
    congr 1
    omega
  rw [htt]
  congr 1
  rw [List.length_take, hlen]
  rcases Nat.lt_or_ge p.limit (table.filter (runsMatch p)).length with h | h
  · rw [decide_eq_true (by omega : p.limit < min (p.limit + 1)
      (table.filter (runsMatch p)).length), decide_eq_true h]
  · rw [decide_eq_false (by omega : ¬ p.limit < min (p.limit + 1)
      (table.filter (runsMatch p)).length),
      decide_eq_false (by omega : ¬ p.limit <
        (table.filter (runsMatch p)).length)]

/-- The pagination driver: starting from a cursor whose remaining matching
rows are the suffix `L.drop j` of the full sorted listing `L`, the client
loop returns exactly that suffix. -/
theorem collectPages_eq_drop (table : List Run) (wf : Option String)
    (stf : Option RunStatus) (k : Nat) (L : List Run) (hk : 0 < k)
    (hL : L = List.insertionSort runDescLE
      (table.filter (runsMatch ⟨k, none, wf, stf⟩)))
    (hstrict : L.Pairwise fun a b => b.runId < a.runId) :
    ∀ (fuel j : Nat) (cur : Option Nat),
      List.insertionSort runDescLE
        (table.filter (runsMatch ⟨k, cur, wf, stf⟩)) = L.drop j →
      j ≤ L.length → L.length - j < fuel →
      collectPages table wf stf k fuel cur = L.drop j := by
  intro fuel
  induction fuel with
  | zero =>
    intro j cur _ _ hfuel
    exact absurd hfuel (Nat.not_lt_zero _)
  | succ fuel ih =>
    intro j cur hcur hj hfuel
    have hflen : (table.filter (runsMatch ⟨k, cur, wf, stf⟩)).length =
        (L.drop j).length := by
      rw [← hcur]
      exact ((List.perm_insertionSort runDescLE _).length_eq).symm
    rw [collectPages, runsList_eq]
    simp only [hcur, hflen]
    by_cases hmore : k < (L.drop j).length
    · rw [if_pos (decide_eq_true hmore)]
      have hkd : k - 1 < (L.drop j).length := by omega
      have hi : j + k - 1 < L.length := by
        rw [List.length_drop] at hmore
        omega
      have hlastq : ((L.drop j).take k).getLast? =
          some (L.get ⟨j + k - 1, hi⟩) := by
        rw [List.getLast?_eq_getElem?, List.length_take]
        have hmin : min k (L.drop j).length = k := by omega
        rw [hmin, List.getElem?_take]
        rw [if_pos (by omega : k - 1 < k)]
        rw [List.getElem?_drop]
        have : j + (k - 1) = j + k - 1 := by omega
        rw [this]
        exact List.getElem?_eq_getElem hi
      rw [hlastq]
      have hcur' : List.insertionSort runDescLE
          (table.filter (runsMatch ⟨k, some (L.get ⟨j + k - 1, hi⟩).runId,
            wf, stf⟩)) = L.drop (j + k) := by
        rw [runsMatch_cursor k k _ wf stf table, insertionSort_filter,
          ← hL]
        have := strict_filter_drop L hstrict (j + k - 1) hi
        rw [this]
        congr 1
        omega
      have hrec := ih (j + k) (some (L.get ⟨j + k - 1, hi⟩).runId) hcur'
        (by rw [List.length_drop] at hmore; omega)
        (by omega)
      rw [Option.map_some']
      rw [hrec]
      have : L.drop (j + k) = (L.drop j).drop k := by
        rw [List.drop_drop]
      rw [this, List.take_append_drop]
    · rw [if_neg (by simp only [decide_eq_true_eq]; exact hmore)]
      rw [List.append_nil]
      exact List.take_of_length_le (by omega)

/-! # Theorems -/

/-! ## C1 — lease stealing -/

/-- C1 counterexample: the claim says a `processing` job with expired
`lockedUntil` is selected by the poll and can be re-leased; at this concrete
crashed job the poll filter and the conditional-lease guard are both false,
the poll selects nothing and the lease `UPDATE` changes nothing. -/
theorem c1_counterexample :
    pollCond "workflow_flows" 1000 crashedJob = false ∧
    lockCond 1000 crashedJob = false ∧
    pollQueueSelect [crashedJob] "workflow_flows" 1000 = [] ∧
    leaseJob [crashedJob] crashedJob 1000 = [crashedJob] := by
  refine ⟨rfl, rfl, rfl, rfl⟩

/-- C1 (amended): only `status='pending'` jobs are ever selected by
`pollQueue` or leased by `processJob`; a `processing` job is never
re-leased, no matter how stale its `lockedUntil` is (the expired-lock
disjunct in both `WHERE` clauses only applies to `pending` rows), so a
crashed worker's job is *not* re-processed. -/
theorem c1_processing_never_reLeased (qn : String) (now : Nat) (j : Job)
    (h : j.status = .processing) :
    pollCond qn now j = false ∧ lockCond now j = false ∧
    (∀ jobs : List Job, j ∉ pollQueueSelect jobs qn now) ∧
    (∀ jobs : List Job, (∀ x ∈ jobs, x.id = j.id → x.status = .processing) →
      leaseHits jobs j now = false ∧ leaseJob jobs j now = jobs) := by
  have hpoll : pollCond qn now j = false := by
    simp [pollCond, h]
  have hlock : lockCond now j = false := by
    simp [lockCond, h]
  refine ⟨hpoll, hlock, ?_, ?_⟩
  · intro jobs hmem
    have hf : j ∈ jobs.filter (pollCond qn now) :=
      List.take_subset 10 _ hmem
    have := (List.mem_filter.mp hf).2
    rw [hpoll] at this
    exact Bool.false_ne_true this
  · intro jobs hall
    have hguard : ∀ x ∈ jobs, (x.id == j.id && lockCond now x) = false := by
      intro x hx
      by_cases hid : x.id = j.id
      · have hxs : x.status = .processing := hall x hx hid
        have : lockCond now x = false := by simp [lockCond, hxs]
        simp [this]
      · have : (x.id == j.id) = false := by
          simpa using hid
        simp [this]
    constructor
    · rw [leaseHits]
      rw [List.any_eq_false]
      intro x hx
      simp [hguard x hx]
    · rw [leaseJob]
      have : ∀ x ∈ jobs,
          (if x.id == j.id && lockCond now x then
            { x with status := .processing, lockedUntil := some (now + 30000)
                     attempts := j.attempts + 1 }
          else x) = x := by
        intro x hx
        rw [hguard x hx]
        simp
      rw [List.map_congr_left this]
      simp

/-- Witness for C1's amended theorem at the concrete crashed job. -/
theorem c1_witness :
    crashedJob.status = .processing ∧
    (pollCond "workflow_flows" 1000 crashedJob = false ∧
      lockCond 1000 crashedJob = false ∧
      (∀ jobs : List Job, crashedJob ∉ pollQueueSelect jobs "workflow_flows" 1000) ∧
      (∀ jobs : List Job,
        (∀ x ∈ jobs, x.id = crashedJob.id → x.status = .processing) →
        leaseHits jobs crashedJob 1000 = false ∧
          leaseJob jobs crashedJob 1000 = jobs)) :=
  ⟨rfl, c1_processing_never_reLeased "workflow_flows" 1000 crashedJob rfl⟩

/-! ## C2 — retry backoff -/

/-- C2 counterexample: the claim computes the backoff from the post-lease
attempt count (here `2`, giving `now + 4000`); the code computes it from the
pre-lease `job.attempts` (here `1`), so after the second failure the row is
rescheduled at `now + 2000`, violating `scheduledFor ≥ now + 4000`. -/
theorem c2_counterexample :
    (handleFailure [secondFailJob] secondFailJob "boom" 50000).map
        Job.scheduledFor = [52000] ∧
    50000 + min (1000 * 2 ^ (secondFailJob.attempts + 1)) 60000 = 54000 ∧
    ¬ (50000 + 4000 ≤ 52000) := by
  refine ⟨rfl, rfl, by decide⟩

/-- C2 (amended): on failure with post-lease attempt count
`a' = job.attempts + 1 < maxAttempts` the row is set to `status='pending'`,
`lockedUntil=NULL`, `error` recorded, and
`scheduledFor = now + min(1000·2^(a'-1), 60000)` — the exponent is the
*pre-lease* attempt count, so the second failure reschedules at
`now + 2000 ms`, not `now + 4000 ms`; when `a' ≥ maxAttempts` the row
becomes `status='failed'` with the error text and `lockedUntil` cleared. -/
theorem c2_failure_update (jobs : List Job) (job : Job) (e : String)
    (now : Nat) (i : Nat) (j : Job) (hj : jobs[i]? = some j)
    (hid : j.id = job.id) :
    (job.attempts + 1 < job.maxAttempts →
      (handleFailure jobs job e now)[i]? =
        some { j with status := .pending
                      scheduledFor :=
                        now + min (1000 * 2 ^ (job.attempts + 1 - 1)) 60000
                      error := some e, lockedUntil := none }) ∧
    (job.maxAttempts ≤ job.attempts + 1 →
      (handleFailure jobs job e now)[i]? =
        some { j with status := .failed, error := some e
                      lockedUntil := none }) := by
  constructor
  · intro hlt
    have hcond : ¬ (job.attempts + 1 ≥ job.maxAttempts) := by omega
    rw [handleFailure, if_neg hcond]
    simp only [List.getElem?_map, hj, Option.map_some']
    rw [hid]
    simp [Nat.add_sub_cancel]
  · intro hge
    rw [handleFailure, if_pos hge]
    simp only [List.getElem?_map, hj, Option.map_some']
    rw [hid]
    simp

/-- Witness for C2's amended theorem: a first failure (pre-lease attempts 0)
is rescheduled at `now + min(1000·2^0, 60000) = now + 1000`. -/
theorem c2_witness :
    (0 + 1 < 3) ∧
    (handleFailure [firstFailJob] firstFailJob "e" 100)[0]? =
      some { firstFailJob with
              status := .pending
              scheduledFor := 100 + min (1000 * 2 ^ (0 + 1 - 1)) 60000
              error := some "e", lockedUntil := none } :=
  ⟨by decide,
    (c2_failure_update [firstFailJob] firstFailJob "e" 100 0 firstFailJob
      rfl rfl).1 (by decide)⟩

/-! ## C3 — idempotent enqueue -/

/-- C3: two sequential `queue(name, m, {idempotencyKey: K})` calls with the
same key `K` (starting from a table with no row keyed `K`) return the same
`messageId`, the second call inserts nothing, and exactly one job row with
`idempotencyKey = K` exists afterwards. -/
theorem c3_idempotent_enqueue (jobPfx name m K : String) (st : QueueState)
    (now now2 : Nat)
    (hvalid : (parseQueueName name).isSome = true)
    (hnone : st.jobs.find? (fun j => j.idempotencyKey == some K) = none) :
    ∃ msgId st1 st2,
      queueOp jobPfx st name m (some K) now = .ok (msgId, st1) ∧
      queueOp jobPfx st1 name m (some K) now2 = .ok (msgId, st2) ∧
      st2.jobs = st1.jobs ∧
      (st1.jobs.filter (fun j => j.idempotencyKey == some K)).length = 1 := by
  obtain ⟨⟨qpfx, qid⟩, hpr⟩ := Option.isSome_iff_exists.mp hvalid
  set J := newJobRow jobPfx qpfx qid m (some K) st.nextMsg now with hJ
  have hJkey : J.idempotencyKey = some K := rfl
  have h1 : queueOp jobPfx st name m (some K) now =
      .ok (st.nextMsg, ⟨st.jobs ++ [J], st.nextMsg + 1⟩) := by
    simp only [queueOp, hpr, hnone]
  have hfind2 : (st.jobs ++ [J]).find?
      (fun j => j.idempotencyKey == some K) = some J := by
    rw [List.find?_append, hnone]
    simp [hJkey]
  have h2 : queueOp jobPfx ⟨st.jobs ++ [J], st.nextMsg + 1⟩ name m (some K)
      now2 = .ok (J.id, ⟨st.jobs ++ [J], st.nextMsg + 1 + 1⟩) := by
    simp only [queueOp, hpr, hfind2]
  have hJid : J.id = st.nextMsg := rfl
  refine ⟨st.nextMsg, ⟨st.jobs ++ [J], st.nextMsg + 1⟩,
    ⟨st.jobs ++ [J], st.nextMsg + 1 + 1⟩, h1, ?_, rfl, ?_⟩
  · rw [h2, hJid]
  · rw [List.filter_append]
    have hnil : st.jobs.filter (fun j => j.idempotencyKey == some K) = [] := by
      rw [List.filter_eq_nil_iff]
      intro a ha
      exact List.find?_eq_none.mp hnone a ha
    rw [hnil]
    simp [hJkey]

/-- Witness for C3 at a concrete enqueue from the empty table. -/
theorem c3_witness :
    ((parseQueueName "__wkf_workflow_abc").isSome = true) ∧
    ((⟨[], 0⟩ : QueueState).jobs.find?
      (fun j => j.idempotencyKey == some "K") = none) ∧
    (∃ msgId st1 st2,
      queueOp "workflow_" ⟨[], 0⟩ "__wkf_workflow_abc" "m" (some "K") 3 =
        .ok (msgId, st1) ∧
      queueOp "workflow_" st1 "__wkf_workflow_abc" "m" (some "K") 7 =
        .ok (msgId, st2) ∧
      st2.jobs = st1.jobs ∧
      (st1.jobs.filter (fun j => j.idempotencyKey == some "K")).length = 1) :=
  ⟨by decide, rfl,
    c3_idempotent_enqueue "workflow_" "__wkf_workflow_abc" "m" "K" ⟨[], 0⟩
      3 7 (by decide) rfl⟩

/-! ## C10 — idempotency lookup ignores queue name and status -/

/-- C10: the idempotency-key lookup of `queue` filters only on
`jobs.idempotencyKey`: whenever *any* row with key `K` exists — whatever its
`queueName` or `status` — the enqueue returns that row's id and leaves the
table unchanged. -/
theorem c10_idempotency_ignores_queue_and_status (jobPfx name m K : String)
    (st : QueueState) (now : Nat) (j : Job)
    (hvalid : (parseQueueName name).isSome = true)
    (hfind : st.jobs.find? (fun x => x.idempotencyKey == some K) = some j) :
    queueOp jobPfx st name m (some K) now =
      .ok (j.id, { st with nextMsg := st.nextMsg + 1 }) := by
  obtain ⟨⟨qpfx, qid⟩, hpr⟩ := Option.isSome_iff_exists.mp hvalid
  simp only [queueOp, hpr, hfind]

/-- Witness for C10: the stale row sits on the `workflow_steps` job queue
with `status='failed'`, while the enqueue targets `__wkf_workflow_abc`
(which maps to `workflow_flows`); the enqueue still returns the stale row's
id and inserts nothing. -/
theorem c10_witness :
    ((parseQueueName "__wkf_workflow_abc").isSome = true) ∧
    ((⟨[staleJob], 7⟩ : QueueState).jobs.find?
      (fun x => x.idempotencyKey == some "K") = some staleJob) ∧
    staleJob.queueName = "workflow_steps" ∧
    staleJob.status = .failed ∧
    queuesMap "workflow_" "__wkf_workflow_" = "workflow_flows" ∧
    queueOp "workflow_" ⟨[staleJob], 7⟩ "__wkf_workflow_abc" "m" (some "K")
      11 = .ok (staleJob.id, ⟨[staleJob], 7 + 1⟩) :=
  ⟨by decide, rfl, rfl, rfl, rfl,
    c10_idempotency_ignores_queue_and_status "workflow_" "__wkf_workflow_abc"
      "m" "K" ⟨[staleJob], 7⟩ 11 staleJob (by decide) rfl⟩

/-! ## C9 — 404 on missing entity for get -/

/-- C9: `runs.get` and `steps.get` raise a 404 `WorkflowAPIError` when no
row exists, but `hooks.get` (`src/storage.ts:409`) has no missing-row check
at all: it returns the (possibly absent) row and can never produce a 404 —
shown in general and at the concrete missing id `0` on empty tables. -/
theorem c9_hooks_get_never_404 :
    (∀ (table : List Hook) (id : Nat), ∃ v, hooksGet table id = .ok v) ∧
    runsGet [] 0 = .error ⟨"Run not found", 404⟩ ∧
    stepsGet [] 0 0 = .error ⟨"Step not found", 404⟩ ∧
    hooksGet [] 0 = .ok none :=
  ⟨fun table id => ⟨table.find? (fun h => h.hookId == id), rfl⟩,
    rfl, rfl, rfl⟩

/-! ## C6 — resume only from paused -/

/-- C6 counterexample: on MySQL, `resume` of an existing run that is *not*
paused does not fail with 404 — the `UPDATE` matches nothing but the
primary-key read-back returns the untouched row, so the call succeeds and
returns the run still in `status='pending'`. -/
theorem c6_counterexample :
    runsResume .mysql [pendingRun] 0 = (.ok pendingRun, [pendingRun]) ∧
    pendingRun.status ≠ .running := by
  refine ⟨rfl, by decide⟩

/-- C6 (amended): on the native-`RETURNING` back-ends (PostgreSQL, SQLite)
`resume` succeeds — returning the run with `status='running'` — exactly when
the current status is paused, and otherwise fails with the 404
`Paused run not found` error leaving the table unchanged. On MySQL only a
*missing* run yields the 404; an existing non-paused run is returned
unchanged (no error, status not `running`) because the read-back uses the
primary key rather than the original WHERE clause. -/
theorem c6_resume_by_backend (db : DatabaseType) (table : List Run)
    (id : Nat) (hnd : table.Pairwise fun a b => a.runId ≠ b.runId) :
    (db ≠ .mysql →
      (∀ r, table.find? (fun x => x.runId == id && x.status == .paused) =
          some r →
        (runsResume db table id).1 = .ok { r with status := .running }) ∧
      (table.find? (fun x => x.runId == id && x.status == .paused) = none →
        runsResume db table id = (.error ⟨"Paused run not found", 404⟩, table))) ∧
    (db = .mysql →
      (table.find? (fun x => x.runId == id) = none →
        runsResume db table id = (.error ⟨"Paused run not found", 404⟩, table)) ∧
      (∀ r, table.find? (fun x => x.runId == id) = some r →
        (r.status = .paused →
          (runsResume db table id).1 = .ok { r with status := .running }) ∧
        (r.status ≠ .paused →
          runsResume db table id = (.ok r, table)))) := by
  have hkey : ∀ x : Run,
      Run.runId (if x.runId == id && x.status == .paused then
        { x with status := RunStatus.running } else x) = x.runId := by
    intro x
    by_cases hx : (x.runId == id && x.status == .paused) = true
    · simp [hx]
    · rw [Bool.not_eq_true] at hx
      simp [hx]
  constructor
  · intro hdb
    constructor
    · intro r hfind
      cases db with
      | mysql => exact absurd rfl hdb
      | postgres => simp only [runsResume, updateAndReturn, hfind,
          Option.map_some']
      | sqlite => simp only [runsResume, updateAndReturn, hfind,
          Option.map_some']
    · intro hnone
      have hnoop : (table.map fun x =>
          if x.runId == id && x.status == .paused then
            { x with status := RunStatus.running }
          else x) = table :=
        map_update_noop table _ _ (List.find?_eq_none.mp hnone)
      cases db with
      | mysql => exact absurd rfl hdb
      | postgres =>
        simp only [runsResume, updateAndReturn, hnone, Option.map_none',
          hnoop]
      | sqlite =>
        simp only [runsResume, updateAndReturn, hnone, Option.map_none',
          hnoop]
  · rintro rfl
    have hfm := find?_pk_map_update table Run.runId id
      (fun x => if x.runId == id && x.status == .paused then
        { x with status := RunStatus.running } else x) hkey
    constructor
    · intro hnone
      have hwn : ∀ x ∈ table,
          ¬ ((x.runId == id && x.status == .paused) = true) := by
        intro x hx hand
        exact List.find?_eq_none.mp hnone x hx
          (Bool.and_eq_true _ _ ▸ hand).1
      have hnoop : (table.map fun x =>
          if x.runId == id && x.status == .paused then
            { x with status := RunStatus.running }
          else x) = table := map_update_noop table _ _ hwn
      simp only [runsResume, updateAndReturn, hnoop, hnone]
    · intro r hfind
      have hrmem : r ∈ table := List.mem_of_find?_eq_some hfind
      have hrid0 := List.find?_some hfind
      have hrid : (r.runId == id) = true := hrid0
      constructor
      · intro hp
        have hwr : (r.runId == id && r.status == .paused) = true := by
          simp [hrid, hp]
        simp only [runsResume, updateAndReturn, hfm, hfind,
          Option.map_some', hwr, if_true]
      · intro hp
        have hwn : ∀ x ∈ table,
            ¬ ((x.runId == id && x.status == .paused) = true) := by
          intro x hx hand
          obtain ⟨hxid, hxp⟩ := Bool.and_eq_true _ _ ▸ hand
          have hxeq : x = r := by
            refine pairwise_key_eq Run.runId table hnd x hx r hrmem ?_
            have h1 : x.runId = id := by simpa using hxid
            have h2 : r.runId = id := by simpa using hrid
            rw [h1, h2]
          subst hxeq
          exact hp (by simpa using hxp)
        have hnoop : (table.map fun x =>
            if x.runId == id && x.status == .paused then
              { x with status := RunStatus.running }
            else x) = table := map_update_noop table _ _ hwn
        simp only [runsResume, updateAndReturn, hnoop, hfind]

/-- Witness for C6 at a paused run on SQLite: `resume` succeeds and returns
the run with `status='running'`. -/
theorem c6_witness :
    (([pausedRun] : List Run).Pairwise fun a b => a.runId ≠ b.runId) ∧
    (DatabaseType.sqlite ≠ .mysql) ∧
    ([pausedRun].find? (fun x => x.runId == 0 && x.status == .paused) =
      some pausedRun) ∧
    (runsResume .sqlite [pausedRun] 0).1 =
      .ok { pausedRun with status := .running } :=
  ⟨by simp, by simp,
    rfl,
    ((c6_resume_by_backend .sqlite [pausedRun] 0 (by simp)).1 (by simp)).1
      pausedRun rfl⟩

/-! ## C4 — startedAt invariant -/

/-- C4 counterexample: after `create; pause; resume` (pause is unguarded and
applies to the pending run) the run has been observed with
`status='running'` — it is running right now — yet `startedAt` is null,
because `resume` does not assign it. This refutes the claimed "non-null iff
ever observed running". -/
theorem c4_counterexample :
    (execTrace .sqlite cex4Ops).table = [cex4Run] ∧
    cex4Run.status = .running ∧ cex4Run.startedAt = none :=
  ⟨rfl, rfl, rfl⟩

/-- C4 (amended): over every operation sequence, (a) a run with non-null
`startedAt` was observed with `status='running'` at some prefix of the
trace, and (b) once `startedAt` is set it never changes under any later
operation. The converse of (a) — running implies non-null `startedAt` —
does not hold because `resume` sets `status='running'` without assigning
`startedAt`. -/
theorem c4_startedAt_invariant (db : DatabaseType)
    (ops : List (RunOp × Nat)) :
    (∀ r ∈ (execTrace db ops).table, r.startedAt ≠ none →
      observedRunning db ops r.runId) ∧
    (∀ n t r r', r ∈ (execTrace db (ops.take n)).table →
      r' ∈ (execTrace db ops).table → r'.runId = r.runId →
      r.startedAt = some t → r'.startedAt = some t) := by
  constructor
  · exact startedAt_implies_observedRunning db ops
  · intro n t r r' hr hr' hid hst
    have hsplit : execFrom db (execTrace db (ops.take n)) (ops.drop n) =
        execTrace db ops := by
      rw [execTrace, execTrace, ← execFrom_append, List.take_append_drop]
    rw [← hsplit] at hr'
    exact startedAt_stable_execFrom db (ops.drop n) _
      (runsInv_execTrace db (ops.take n)) r hr t hst r' hr' hid

/-- Witness for C4: after `create; update(status:=running)` the run has
`startedAt = 5 ≠ null`, and the theorem yields that it was observed
running. -/
theorem c4_witness :
    c4wRun ∈ (execTrace .sqlite c4wOps).table ∧
    c4wRun.startedAt ≠ none ∧
    observedRunning .sqlite c4wOps c4wRun.runId :=
  ⟨List.mem_singleton.mpr rfl, by decide,
    (c4_startedAt_invariant .sqlite c4wOps).1 c4wRun
      (List.mem_singleton.mpr rfl) (by decide)⟩

/-! ## C5 — completedAt invariant -/

/-- C5 counterexample: updating a completed run to `completed` again
*overwrites* `completedAt` with the new time (the source sets it on every
terminal update, unguarded), so "once set, it never changes" fails: after
`create; update(completed)@1; update(completed)@2` the same run's
`completedAt` moved from `some 1` to `some 2`. -/
theorem c5_counterexample :
    (execTrace .sqlite (cex5Ops.take 2)).table.map Run.completedAt =
      [some 1] ∧
    (execTrace .sqlite cex5Ops).table.map Run.completedAt = [some 2] ∧
    (some 1 : Option Nat) ≠ some 2 :=
  ⟨rfl, rfl, by decide⟩

/-- C5 (amended): over every operation sequence, (a) a run in a terminal
status has non-null `completedAt`; (b) once `completedAt` is non-null it
stays non-null (though later terminal updates overwrite its value); and
(c) every `runs.update` whose patch status is terminal sets
`completedAt = now` on the updated row — on every such update, not only the
first. The claim's converse (non-null `completedAt` implies terminal
status) fails because an update can move a completed run back to a
non-terminal status without clearing `completedAt`. -/
theorem c5_completedAt_invariant (db : DatabaseType)
    (ops : List (RunOp × Nat)) :
    (∀ r ∈ (execTrace db ops).table, r.status.isTerminal = true →
      r.completedAt ≠ none) ∧
    (∀ n r r', r ∈ (execTrace db (ops.take n)).table →
      r' ∈ (execTrace db ops).table → r'.runId = r.runId →
      r.completedAt ≠ none → r'.completedAt ≠ none) ∧
    (∀ (table : List Run) (id : Nat) (p : RunPatch) (now : Nat) (c : Run),
      table.find? (fun r => r.runId == id) = some c →
      (p.status == some .completed || p.status == some .failed ||
        p.status == some .cancelled) = true →
      ∀ y ∈ (runsUpdate db table id p now).2, (y.runId == id) = true →
        y.completedAt = some now) := by
  refine ⟨terminal_implies_completedAt db ops, ?_, ?_⟩
  · intro n r r' hr hr' hid hne
    have hsplit : execFrom db (execTrace db (ops.take n)) (ops.drop n) =
        execTrace db ops := by
      rw [execTrace, execTrace, ← execFrom_append, List.take_append_drop]
    rw [← hsplit] at hr'
    exact completedAt_stays_execFrom db (ops.drop n) _
      (runsInv_execTrace db (ops.take n)) r hr hne r' hr' hid
  · intro table id p now c hfind h2 y hy hyid
    rw [runsUpdate_snd, hfind] at hy
    obtain ⟨x, hx, rfl⟩ := List.mem_map.mp hy
    by_cases hxid : (x.runId == id) = true
    · rw [if_pos hxid]
      exact updateSetFn_completedAt c p now x h2
    · rw [Bool.not_eq_true] at hxid
      rw [hxid] at hyid
      simp only [Bool.false_eq_true, if_false] at hyid
      rw [hxid] at hyid
      simp at hyid

/-- Witness for C5: after `create; cancel@4` the run is cancelled and the
theorem yields `completedAt ≠ null` (indeed it is `some 4`). -/
theorem c5_witness :
    c5wRun ∈ (execTrace .sqlite c5wOps).table ∧
    c5wRun.status.isTerminal = true ∧
    c5wRun.completedAt ≠ none :=
  ⟨List.mem_singleton.mpr rfl, rfl,
    (c5_completedAt_invariant .sqlite c5wOps).1 c5wRun
      (List.mem_singleton.mpr rfl) rfl⟩

/-! ## C7 — stream ordering -/

/-- C7: after `K` writes of non-empty chunks followed by `closeStream`, a
reader delivers exactly the `K` chunks in write order and then terminates;
chunks after EOF are ignored; and — for *any* event sequence whatsoever —
the delivered chunk ids are strictly increasing (hence no chunk is ever
delivered twice). -/
theorem c7_stream_order (name : String) (datas : List (List Nat))
    (hne : ∀ d ∈ datas, d ≠ []) :
    (streamScenario name datas).emitted.map ChunkEvent.data = datas ∧
    (streamScenario name datas).closed = true ∧
    (∀ extra : List ChunkEvent,
      readEvents (ReaderState.init 0)
        (selectChunks (closeStream (writeAll ⟨[], 0⟩ name datas) name).rows
          name ++ extra) = streamScenario name datas) ∧
    List.Chain' (· < ·)
      ((streamScenario name datas).emitted.map ChunkEvent.id) ∧
    (∀ (k : Nat) (evs : List ChunkEvent), List.Chain' (· < ·)
      ((readEvents (ReaderState.init k) evs).emitted.map ChunkEvent.id)) := by
  have hrows : (closeStream (writeAll ⟨[], 0⟩ name datas) name).rows =
      chunkRowsFrom name 0 datas ++ [⟨name, datas.length, [], true⟩] := by
    rw [writeAll_spec]
    simp [closeStream]
  have hsel : selectChunks
      (closeStream (writeAll ⟨[], 0⟩ name datas) name).rows name =
      chunkEventsFrom 0 datas ++ [⟨datas.length, [], true⟩] := by
    rw [selectChunks, hrows]
    have hfil : (chunkRowsFrom name 0 datas ++
        [(⟨name, datas.length, [], true⟩ : ChunkRow)]).filter
          (fun r => r.streamId == name) =
        chunkRowsFrom name 0 datas ++
          [(⟨name, datas.length, [], true⟩ : ChunkRow)] := by
      rw [List.filter_eq_self]
      intro a ha
      rcases List.mem_append.mp ha with h | h
      · rw [chunkRowsFrom_streamId name datas 0 a h]
        simp
      · rw [List.mem_singleton.mp h]
        simp
    rw [hfil]
    have hsorted : List.Sorted chunkAscLE (chunkRowsFrom name 0 datas ++
        [(⟨name, datas.length, [], true⟩ : ChunkRow)]) := by
      refine List.pairwise_append.mpr
        ⟨chunkRowsFrom_sorted name datas 0, List.pairwise_singleton _ _, ?_⟩
      intro a ha b hb
      rw [List.mem_singleton.mp hb]
      show a.chunkId ≤ datas.length
      have := (chunkRowsFrom_bounds name datas 0 a ha).2
      omega
    rw [hsorted.insertionSort_eq, List.map_append,
      chunkRowsFrom_map_events]
    rfl
  obtain ⟨hem, hcl, hoff, hlast⟩ :=
    readEvents_all_emitted (chunkEventsFrom 0 datas) (ReaderState.init 0)
      rfl rfl (chunkEventsFrom_nonempty datas hne 0)
      (chunkEventsFrom_eof datas 0) (chunkEventsFrom_chain datas 0)
      (fun e _ => trivial)
  set s1 := readEvents (ReaderState.init 0) (chunkEventsFrom 0 datas)
    with hs1
  have hs2 : enqueueChunk s1 ⟨datas.length, [], true⟩ =
      { s1 with closed := true, lastChunkId := some datas.length } := by
    rw [enqueueChunk]
    have hguard : (s1.closed ||
        (match s1.lastChunkId with
         | none => false
         | some l =>
            decide ((⟨datas.length, [], true⟩ : ChunkEvent).id ≤ l))) =
        false := by
      rw [hcl, Bool.false_or]
      rcases hlast with h | ⟨e, he, h⟩
      · rw [h]
        rfl
      · rw [h]
        have := (chunkEventsFrom_bounds datas 0 e he).2
        simp only [decide_eq_false_iff_not]
        show ¬ (datas.length ≤ e.id)
        omega
    rw [hguard]
    simp only [Bool.false_eq_true, if_false]
    rw [hoff]
    simp
  have hscen : streamScenario name datas =
      { s1 with closed := true, lastChunkId := some datas.length } := by
    rw [streamScenario, hsel, readEvents_append, ← hs1]
    show enqueueChunk s1 ⟨datas.length, [], true⟩ = _
    exact hs2
  refine ⟨?_, ?_, ?_, ?_, ?_⟩
  · rw [hscen]
    show s1.emitted.map ChunkEvent.data = datas
    rw [hem]
    show ([] ++ chunkEventsFrom 0 datas).map ChunkEvent.data = datas
    rw [List.nil_append]
    exact chunkEventsFrom_data datas 0
  · rw [hscen]
  · intro extra
    rw [readEvents_append]
    show readEvents (streamScenario name datas) extra =
      streamScenario name datas
    refine readEvents_closed_fix extra _ ?_
    rw [hscen]
  · rw [hscen]
    show List.Chain' (· < ·) (s1.emitted.map ChunkEvent.id)
    exact readEvents_chain (chunkEventsFrom 0 datas) (ReaderState.init 0)
      List.chain'_nil (fun x hx => absurd hx (List.not_mem_nil x))
  · intro k evs
    exact readEvents_chain evs (ReaderState.init k)
      List.chain'_nil (fun x hx => absurd hx (List.not_mem_nil x))

/-- Witness for C7 at three one-byte writes. -/
theorem c7_witness :
    (∀ d ∈ [[1], [2], [3]], d ≠ ([] : List Nat)) ∧
    (streamScenario "s" [[1], [2], [3]]).emitted.map ChunkEvent.data =
      [[1], [2], [3]] ∧
    (streamScenario "s" [[1], [2], [3]]).closed = true :=
  ⟨by decide,
    (c7_stream_order "s" [[1], [2], [3]] (by decide)).1,
    (c7_stream_order "s" [[1], [2], [3]] (by decide)).2.1⟩

/-! ## C8 — pagination -/

/-- C8: paging through `runs.list` with the returned cursor (pages of any
size `k ≥ 1`, distinct `runId`s) returns exactly the single listing of size
`N = table.length`: strictly descending by `runId` (hence no duplicates),
with no omissions (membership characterises the filter), `hasMore` true
exactly when more than `limit` rows match beyond the cursor, and the
returned cursor equal to the last `runId` of the page. -/
theorem c8_pagination (table : List Run) (wf : Option String)
    (stf : Option RunStatus) (k fuel : Nat) (hk : 0 < k)
    (hnd : table.Pairwise fun a b => a.runId ≠ b.runId)
    (hfuel : table.length < fuel) :
    collectPages table wf stf k fuel none =
      (runsList table ⟨table.length, none, wf, stf⟩).data ∧
    ((runsList table ⟨table.length, none, wf, stf⟩).data.Pairwise
      fun a b => b.runId < a.runId) ∧
    (∀ r, r ∈ (runsList table ⟨table.length, none, wf, stf⟩).data ↔
      r ∈ table ∧ runsMatch ⟨table.length, none, wf, stf⟩ r = true) ∧
    (∀ p : ListParams, ((runsList table p).hasMore = true ↔
      p.limit < (table.filter (runsMatch p)).length)) ∧
    (∀ (p : ListParams) (rs : List Run) (r : Run),
      (runsList table p).data = rs ++ [r] →
      (runsList table p).cursor = some r.runId) := by
  set L := List.insertionSort runDescLE
    (table.filter (runsMatch ⟨k, none, wf, stf⟩)) with hLdef
  have hperm : L.Perm (table.filter (runsMatch ⟨k, none, wf, stf⟩)) := by
    rw [hLdef]
    exact List.perm_insertionSort runDescLE _
  have hndL : L.Pairwise fun a b => a.runId ≠ b.runId :=
    (hperm.pairwise_iff fun h => h.symm).mpr (hnd.filter _)
  have hsorted : List.Sorted runDescLE L := by
    rw [hLdef]
    exact List.sorted_insertionSort runDescLE _
  have hstrict := sorted_strict L hsorted hndL
  have hLlen : L.length ≤ table.length := by
    rw [hperm.length_eq]
    exact List.length_filter_le _ _
  have hfun : runsMatch ⟨table.length, none, wf, stf⟩ =
      runsMatch ⟨k, none, wf, stf⟩ := rfl
  have hdata : (runsList table ⟨table.length, none, wf, stf⟩).data = L := by
    rw [runsList_eq]
    show (List.insertionSort runDescLE
      (table.filter (runsMatch ⟨table.length, none, wf, stf⟩))).take
        table.length = L
    rw [hfun, ← hLdef]
    exact List.take_of_length_le hLlen
  refine ⟨?_, ?_, ?_, ?_, ?_⟩
  · have h0 := collectPages_eq_drop table wf stf k L hk hLdef hstrict fuel
      0 none (by rw [List.drop_zero, hLdef]) (Nat.zero_le _)
      (by omega)
    rw [hdata, h0, List.drop_zero]
  · rw [hdata]
    exact hstrict
  · intro r
    rw [hdata]
    rw [hperm.mem_iff, List.mem_filter, hfun]
  · intro p
    rw [runsList_eq]
    show decide (p.limit < (table.filter (runsMatch p)).length) = true ↔
      p.limit < (table.filter (runsMatch p)).length
    exact ⟨of_decide_eq_true, decide_eq_true⟩
  · intro p rs r h
    rw [runsList_eq] at h ⊢
    show ((List.insertionSort runDescLE
      (table.filter (runsMatch p))).take p.limit).getLast?.map Run.runId =
        some r.runId
    have h' : (List.insertionSort runDescLE
        (table.filter (runsMatch p))).take p.limit = rs ++ [r] := h
    rw [h', List.getLast?_concat, Option.map_some']

/-- Witness for C8: three runs with ids 3, 1, 2, paged two at a time. -/
theorem c8_witness :
    (0 < 2) ∧
    (([runA, runB, runC] : List Run).Pairwise
      fun a b => a.runId ≠ b.runId) ∧
    (([runA, runB, runC] : List Run).length < 4) ∧
    collectPages [runA, runB, runC] none none 2 4 none =
      (runsList [runA, runB, runC]
        ⟨[runA, runB, runC].length, none, none, none⟩).data :=
  ⟨by decide, by decide, by decide,
    (c8_pagination [runA, runB, runC] none none 2 4 (by decide) (by decide)
      (by decide)).1⟩

end WorldSQL
